import Mathlib

/-!
# NHD_OLED driver: bit-banged SPI frames, cursor addressing and text layout

A shallow embedding of `NHD_OLED_Driver.cpp`.

* A `byte` variable is a `Byte` (a natural number below 256).  C evaluates every
  arithmetic expression on promoted `int` operands, so the embedding computes in
  `Int`/`Nat` on the values and reduces modulo 256 (`Byte.ofInt`, `Byte.ofNat`)
  exactly where the source assigns to, or passes, a `byte`.
* The Arduino primitives `pinMode`, `digitalWrite` and `delay` are recorded as
  `Event`s; an operation of the driver yields the list of events it performs.
* An array access outside the array is a `Fault`; operations that index arrays
  return `Except Fault _`.
* Locals that the source reads or overwrites without initialising them start
  from the values of a `Stack` parameter.
-/

/-- An 8-bit unsigned value (`byte`, and the bit pattern of a `char`). -/
abbrev Byte := Fin 256

/-- Conversion of an `int` value to `byte`: reduction modulo 256. -/
def Byte.ofInt (x : Int) : Byte := ⟨(x % 256).toNat, by omega⟩

/-- Conversion of a non-negative `int` value to `byte`: reduction modulo 256. -/
def Byte.ofNat (x : Nat) : Byte := ⟨x % 256, by omega⟩

/-- Arduino core constant `LOW`. -/
def LOW : Byte := 0

/-- Arduino core constant `HIGH`. -/
def HIGH : Byte := 1

/-- Arduino core constant `OUTPUT`. -/
def OUTPUT : Byte := 1

/-- One call of a platform primitive. -/
inductive Event where
  | pinMode (pin mode : Byte)
  | digitalWrite (pin val : Byte)
  | delay (ms : Nat)
deriving DecidableEq, Repr

/-- Undefined behaviour that the embedding tracks: an array of `size` elements
indexed at `index`. -/
inductive Fault where
  | outOfBounds (index : Int) (size : Nat)
deriving DecidableEq, Repr

deriving instance DecidableEq for Except

/-- Read `a[i]`. -/
def index {α : Type} (a : List α) (i : Int) : Except Fault α :=
  if i < 0 then .error (.outOfBounds i a.length)
  else match a[i.toNat]? with
    | some v => .ok v
    | none => .error (.outOfBounds i a.length)

/-- Write `a[i] = v`. -/
def store {α : Type} (a : List α) (i : Int) (v : α) : Except Fault (List α) :=
  if 0 ≤ i ∧ i < a.length then .ok (a.set i.toNat v)
  else .error (.outOfBounds i a.length)

/-- A loop that runs its body `n` times; the body neither uses the counter nor
faults. `for (i = 0; i < n; i++) body` with a `byte` counter and a `byte` bound
is `times n body`. -/
def times {σ : Type} : Nat → (σ → σ) → σ → σ
  | 0, _, st => st
  | n + 1, body, st => times n body (body st)

/-- The loop `for (i = lo; i < hi; i++) body`, run as `forLoop body (hi - lo).toNat lo`:
the counter starts at `i` and the body is run for `n` consecutive values. -/
def forLoop {σ : Type} (body : Int → σ → Except Fault σ) : Nat → Int → σ → Except Fault σ
  | 0, _, st => .ok st
  | n + 1, i, st =>
    match body i st with
    | .error e => .error e
    | .ok st1 => forLoop body n (i + 1) st1

/-- Values of the locals that the source leaves uninitialised. -/
structure Stack where
  /-- the counter `int i` of the fill loop of `textClearRow` -/
  i : Int
  /-- the array `temp` of `textClearRow` before the fill loop -/
  temp : Nat → Byte
  /-- the array `line` of the layout operations before it is cleared -/
  line : Nat → Byte

/-- The members of `class NHD_OLED`: pin designations and display geometry
(`C_S` is used by the `.cpp` file). -/
structure NHD_OLED where
  SCLK : Byte := 0
  SDIN : Byte := 1
  C_S : Byte := 2
  DISP_ROWS : Byte := 2
  DISP_COLUMNS : Byte := 16
deriving DecidableEq, Repr

namespace NHD_OLED

/-- Method `NHD_OLED::SPIBitBang`. The loop state is the shifted register (`cb` or
`data`) and the events so far. -/
def SPIBitBang (s : NHD_OLED) (data isCommand : Byte) : List Event :=
  let cb : Byte := if isCommand.val = 0 then 0xFA else 0xF8
  let out : List Event := [.digitalWrite s.C_S LOW]
  let (_, out) := times 8 (fun (st : Byte × List Event) =>
    (Byte.ofNat (st.1.val <<< 1),
      st.2 ++ [.digitalWrite s.SCLK LOW,
               .digitalWrite s.SDIN (Byte.ofNat ((st.1.val &&& 0x80) >>> 7)),
               .digitalWrite s.SCLK HIGH])) (cb, out)
  let (data, out) := times 4 (fun (st : Byte × List Event) =>
    (Byte.ofNat (st.1.val >>> 1),
      st.2 ++ [.digitalWrite s.SCLK LOW,
               .digitalWrite s.SDIN (Byte.ofNat (st.1.val &&& 0x01)),
               .digitalWrite s.SCLK HIGH])) (data, out)
  let out := times 4 (fun (out : List Event) =>
    out ++ [.digitalWrite s.SCLK LOW, .digitalWrite s.SDIN LOW,
            .digitalWrite s.SCLK HIGH]) out
  let (_, out) := times 4 (fun (st : Byte × List Event) =>
    (Byte.ofNat (st.1.val >>> 1),
      st.2 ++ [.digitalWrite s.SCLK LOW,
               .digitalWrite s.SDIN (Byte.ofNat (st.1.val &&& 0x01)),
               .digitalWrite s.SCLK HIGH])) (data, out)
  times 4 (fun (out : List Event) =>
    out ++ [.digitalWrite s.SCLK LOW, .digitalWrite s.SDIN LOW,
            .digitalWrite s.SCLK HIGH]) out

/-- Method `NHD_OLED::sendCommand`. -/
def sendCommand (s : NHD_OLED) (command : Byte) : List Event :=
  SPIBitBang s command 1

/-- Method `NHD_OLED::sendData`. -/
def sendData (s : NHD_OLED) (data : Byte) : List Event :=
  SPIBitBang s data 0

/-- Method `NHD_OLED::setupDisplaySize`. -/
def setupDisplaySize (s : NHD_OLED) (rows columns : Byte) : NHD_OLED :=
  { s with DISP_ROWS := rows, DISP_COLUMNS := columns }

/-- Method `NHD_OLED::setupPins`. -/
def setupPins (s : NHD_OLED) (pinSCLK pinSDIN pinC_S : Byte) : NHD_OLED × List Event :=
  let s := { s with SCLK := pinSCLK, SDIN := pinSDIN, C_S := pinC_S }
  (s, [.pinMode s.SCLK OUTPUT, .pinMode s.SDIN OUTPUT, .pinMode s.C_S OUTPUT,
       .digitalWrite s.SCLK HIGH, .digitalWrite s.SDIN HIGH, .delay 30])

/-- Method `NHD_OLED::setupInit`. -/
def setupInit (s : NHD_OLED) : List Event :=
  -- Internal voltage regulator configuration
  sendCommand s 0x2A ++ sendCommand s 0x71 ++ sendData s 0x5C
  -- Display off
  ++ sendCommand s 0x28 ++ sendCommand s 0x08
  -- Timing configuration
  ++ sendCommand s 0x2A ++ sendCommand s 0x79 ++ sendCommand s 0xD5 ++ sendCommand s 0x70
  ++ sendCommand s 0x78
  -- Row count configuration
  ++ sendCommand s 0x28
  ++ (if s.DISP_ROWS.val < 3 then
        sendCommand s 0x08
        ++ (if s.DISP_ROWS.val = 1 then sendCommand s 0x20 else sendCommand s 0x28)
      else
        sendCommand s 0x09
        ++ (if s.DISP_ROWS.val = 3 then sendCommand s 0x20 else sendCommand s 0x28))
  -- CGROM select configuration
  ++ sendCommand s 0x2A ++ sendCommand s 0x72 ++ sendData s 0x00
  -- Segment control configuration
  ++ sendCommand s 0x06 ++ sendCommand s 0x20
  -- Internal hardware configuration
  ++ sendCommand s 0x79 ++ sendCommand s 0xDA ++ sendCommand s 0x10 ++ sendCommand s 0xDC
  ++ sendCommand s 0x00 ++ sendCommand s 0x81 ++ sendCommand s 0x7F ++ sendCommand s 0xD9
  ++ sendCommand s 0xF1 ++ sendCommand s 0xDB ++ sendCommand s 0x40 ++ sendCommand s 0x78
  -- Wrapping up and switching on
  ++ sendCommand s 0x28 ++ sendCommand s 0x01 ++ sendCommand s 0x80 ++ sendCommand s 0x0C
  ++ [.delay 100]

/-- Method `NHD_OLED::begin`. -/
def begin (s : NHD_OLED) (pinSCLK pinSDIN pinC_S rows columns : Byte) :
    NHD_OLED × List Event :=
  let (s, t1) := setupPins s pinSCLK pinSDIN pinC_S
  let s := setupDisplaySize s rows columns
  (s, t1 ++ setupInit s)

/-- Method `NHD_OLED::displayControl`. -/
def displayControl (s : NHD_OLED) (display cursor block : Byte) : List Event :=
  let value : Byte := 0x08
  let value : Byte := if display.val ≠ 0 then Byte.ofNat (value.val + 4) else value
  let value : Byte := if cursor.val ≠ 0 then Byte.ofNat (value.val + 2) else value
  let value : Byte := if block.val ≠ 0 then Byte.ofNat (value.val + 1) else value
  sendCommand s value

/-- Method `NHD_OLED::displayOn`. -/
def displayOn (s : NHD_OLED) : List Event :=
  sendCommand s 0x0C ++ [.delay 10]

/-- Method `NHD_OLED::displayOff`. -/
def displayOff (s : NHD_OLED) : List Event :=
  sendCommand s 0x08 ++ [.delay 10]

/-- Method `NHD_OLED::textClear`. -/
def textClear (s : NHD_OLED) : List Event :=
  sendCommand s 0x01 ++ [.delay 10]

/-- Method `NHD_OLED::cursorHome`. -/
def cursorHome (s : NHD_OLED) : List Event :=
  sendCommand s 0x02 ++ [.delay 10]

/-- The local table `row_command` of `cursorMoveToRow` and `cursorPos`. -/
def row_command : List Byte := [0x80, 0xA0, 0xC0, 0xE0]

/-- Method `NHD_OLED::cursorMoveToRow`. -/
def cursorMoveToRow (s : NHD_OLED) (rowNumber : Byte) : Except Fault (List Event) := do
  let c ← index row_command rowNumber.val
  pure (sendCommand s c ++ [.delay 10])

/-- Method `NHD_OLED::print(char text)`. -/
def printChar (s : NHD_OLED) (text : Byte) : List Event :=
  sendData s text

/-- Method `NHD_OLED::print(char *text, byte len)`; `text` is the array the pointer
refers to. -/
def print (s : NHD_OLED) (text : List Byte) (len : Byte) : Except Fault (List Event) :=
  forLoop (fun i out => do
    let c ← index text i
    pure (out ++ sendData s c)) len.val 0 []

/-- Method `NHD_OLED::textClearRow`. The fill loop is `for (int i; i < DISP_COLUMNS; i++)`:
its counter starts from whatever `g.i` is. -/
def textClearRow (s : NHD_OLED) (g : Stack) (rowNumber : Byte) :
    Except Fault (List Event) := do
  let temp : List Byte := (List.range s.DISP_COLUMNS.val).map g.temp
  let temp ← forLoop (fun i temp => store temp i 0x20)
    ((s.DISP_COLUMNS.val : Int) - g.i).toNat g.i temp
  let t1 ← cursorMoveToRow s rowNumber
  let t2 ← print s temp s.DISP_COLUMNS
  pure (t1 ++ t2)

/-- Method `NHD_OLED::shift`. -/
def shift (s : NHD_OLED) (dc rl : Byte) : List Event :=
  let value : Byte := 0x10
  let value : Byte := if dc.val ≠ 0 then Byte.ofNat (value.val + 8) else value
  let value : Byte := if rl.val ≠ 0 then Byte.ofNat (value.val + 4) else value
  sendCommand s value

/-- Method `NHD_OLED::cursorPos`. -/
def cursorPos (s : NHD_OLED) (row column : Byte) : Except Fault (List Event) := do
  let row : Byte :=
    if row.val ≥ s.DISP_ROWS.val then Byte.ofInt ((s.DISP_ROWS.val : Int) - 1) else row
  let column : Byte :=
    if column.val ≥ s.DISP_COLUMNS.val then Byte.ofInt ((s.DISP_COLUMNS.val : Int) - 1)
    else column
  let c ← index row_command row.val
  pure (sendCommand s (Byte.ofNat (c.val + column.val)))

/-- Method `NHD_OLED::print(char *text, byte len, byte r, byte c)`. -/
def printAt (s : NHD_OLED) (text : List Byte) (len r c : Byte) :
    Except Fault (List Event) := do
  let t1 ← cursorPos s r c
  let t2 ← forLoop (fun i out => do
    let ch ← index text i
    pure (out ++ sendData s ch)) len.val 0 []
  pure (t1 ++ t2)

/-- Method `NHD_OLED::print(char text, byte r, byte c)`. -/
def printCharAt (s : NHD_OLED) (text r c : Byte) : Except Fault (List Event) := do
  let t1 ← cursorPos s r c
  pure (t1 ++ sendData s text)

/-- The buffer that `textPrintCentered` and `textSweep` build (the same two
loops in both): `line` is cleared to spaces, then `text` is copied to offset
`(DISP_COLUMNS - length) / 2`, a division of `int`s that truncates towards zero. -/
def centeredBuffer (s : NHD_OLED) (g : Stack) (text : List Byte) (length : Byte) :
    Except Fault (List Byte) := do
  let line : List Byte := (List.range s.DISP_COLUMNS.val).map g.line
  let line ← forLoop (fun i line => store line i 0x20) s.DISP_COLUMNS.val 0 line
  forLoop (fun i line => do
    let c ← index text i
    store line (Int.tdiv ((s.DISP_COLUMNS.val : Int) - (length.val : Int)) 2 + i) c)
    length.val 0 line

/-- Method `NHD_OLED::textPrintCentered`. -/
def textPrintCentered (s : NHD_OLED) (g : Stack) (text : List Byte) (length row : Byte) :
    Except Fault (List Event) := do
  let line ← centeredBuffer s g text length
  let t1 ← textClearRow s g row
  let t2 ← cursorMoveToRow s row
  let t3 ← print s line s.DISP_COLUMNS
  pure (t1 ++ t2 ++ t3)

/-- Method `NHD_OLED::textPrintRightJustified`. -/
def textPrintRightJustified (s : NHD_OLED) (g : Stack) (text : List Byte)
    (length row : Byte) : Except Fault (List Event) := do
  let line : List Byte := (List.range s.DISP_COLUMNS.val).map g.line
  let line ← forLoop (fun i line => store line i 0x20) s.DISP_COLUMNS.val 0 line
  let line ← forLoop (fun i line => do
    let c ← index text i
    store line (((s.DISP_COLUMNS.val : Int) - (length.val : Int)) + i) c)
    length.val 0 line
  let t1 ← textClearRow s g row
  let t2 ← cursorMoveToRow s row
  let t3 ← print s line s.DISP_COLUMNS
  pure (t1 ++ t2 ++ t3)

/-- One pass of the first loop of `textSweep` (sweep into the centre); the loop
state is `stepnum` and the events of the loop so far. The local `start` is
assigned in this loop but never read, so it is left out. -/
def sweepInStep (s : NHD_OLED) (row leftSweepChar rightSweepChar : Byte) (timeDelay : Nat)
    (st : Byte × List Event) : Except Fault (Byte × List Event) := do
  let (stepnum, out) := st
  let t ← cursorMoveToRow s row
  let out := out ++ t
  let outer : Byte := stepnum
  let inner : Byte := Byte.ofInt ((s.DISP_COLUMNS.val : Int) - 2 - (stepnum.val : Int) * 2)
  let out := times outer.val (fun o => o ++ printChar s 0x20) out
  let out := out ++ printChar s leftSweepChar
  let out := times inner.val (fun o => o ++ printChar s 0x20) out
  let out := out ++ printChar s rightSweepChar
  let out := times outer.val (fun o => o ++ printChar s 0x20) out
  let out := out ++ [.delay timeDelay]
  pure (Byte.ofNat (stepnum.val + 1), out)

/-- One pass of the second loop of `textSweep` (sweep out from the centre). -/
def sweepOutStep (s : NHD_OLED) (line : List Byte) (row leftSweepChar rightSweepChar : Byte)
    (timeDelay : Nat) (st : Byte × List Event) : Except Fault (Byte × List Event) := do
  let (stepnum, out) := st
  let t ← cursorMoveToRow s row
  let out := out ++ t
  let outer : Byte := stepnum
  let inner : Byte := Byte.ofInt ((s.DISP_COLUMNS.val : Int) - 2 - (stepnum.val : Int) * 2)
  let start : Byte := Byte.ofNat (stepnum.val + 1)
  let out := times outer.val (fun o => o ++ printChar s 0x20) out
  let out := out ++ printChar s rightSweepChar
  let out ← forLoop (fun ii o => do
    let c ← index line ((start.val : Int) + ii)
    pure (o ++ printChar s c)) inner.val 0 out
  let out := out ++ printChar s leftSweepChar
  let out := times outer.val (fun o => o ++ printChar s 0x20) out
  let out := out ++ [.delay timeDelay]
  pure (Byte.ofInt ((stepnum.val : Int) - 1), out)

/-- The first loop of `textSweep`, `for (i = 0; i < (DISP_COLUMNS / 2); i++)`,
entered with `stepnum = 0`: the value of `stepnum` after it and its events. -/
def sweepClosing (s : NHD_OLED) (row leftSweepChar rightSweepChar : Byte) (timeDelay : Nat) :
    Except Fault (Byte × List Event) :=
  forLoop (fun _ st => sweepInStep s row leftSweepChar rightSweepChar timeDelay st)
    (s.DISP_COLUMNS.val / 2) 0 (0, [])

/-- The second loop of `textSweep`,
`for (i = (DISP_COLUMNS / 2); i < DISP_COLUMNS; i++)`, entered with `stepnum`. -/
def sweepOpening (s : NHD_OLED) (line : List Byte) (row leftSweepChar rightSweepChar : Byte)
    (timeDelay : Nat) (stepnum : Byte) : Except Fault (Byte × List Event) :=
  forLoop (fun _ st => sweepOutStep s line row leftSweepChar rightSweepChar timeDelay st)
    (s.DISP_COLUMNS.val - s.DISP_COLUMNS.val / 2) (s.DISP_COLUMNS.val / 2 : Nat) (stepnum, [])

/-- Method `NHD_OLED::textSweep`. -/
def textSweep (s : NHD_OLED) (g : Stack) (text : List Byte)
    (length row leftSweepChar rightSweepChar : Byte) (timeDelay : Nat) :
    Except Fault (List Event) := do
  let line ← centeredBuffer s g text length
  let t0 ← textClearRow s g row
  let (stepnum, t1) ← sweepClosing s row leftSweepChar rightSweepChar timeDelay
  let stepnum : Byte := Byte.ofInt ((stepnum.val : Int) - 1)
  let (_, t2) ← sweepOpening s line row leftSweepChar rightSweepChar timeDelay stepnum
  let t3 ← cursorMoveToRow s row
  let t4 ← print s line s.DISP_COLUMNS
  pure (t0 ++ t1 ++ t2 ++ t3 ++ t4)

/-- Method `NHD_OLED::clear`. -/
def clear (s : NHD_OLED) : List Event := textClear s

/-- Method `NHD_OLED::home`. -/
def home (s : NHD_OLED) : List Event := cursorHome s

/-- Method `NHD_OLED::setCursor`. -/
def setCursor (s : NHD_OLED) (col row : Byte) : Except Fault (List Event) :=
  cursorPos s row col

/-- Method `NHD_OLED::write`. -/
def write (s : NHD_OLED) (data : Byte) : List Event := printChar s data

/-- Method `NHD_OLED::cursor`. -/
def cursor (s : NHD_OLED) : List Event := displayControl s 1 1 0

/-- Method `NHD_OLED::noCursor`. -/
def noCursor (s : NHD_OLED) : List Event := displayControl s 1 0 0

/-- Method `NHD_OLED::blink`. -/
def blink (s : NHD_OLED) : List Event := displayControl s 1 1 1

/-- Method `NHD_OLED::noBlink`. -/
def noBlink (s : NHD_OLED) : List Event := displayControl s 1 1 0

/-- Method `NHD_OLED::display`. -/
def display (s : NHD_OLED) : List Event := displayOn s

/-- Method `NHD_OLED::noDisplay`. -/
def noDisplay (s : NHD_OLED) : List Event := displayOff s

/-- Method `NHD_OLED::scrollDisplayLeft`. -/
def scrollDisplayLeft (s : NHD_OLED) : List Event := shift s 1 0

/-- Method `NHD_OLED::scrollDisplayRight`. -/
def scrollDisplayRight (s : NHD_OLED) : List Event := shift s 1 1

/-- Method `NHD_OLED::autoscroll`: empty body. -/
def autoscroll (_s : NHD_OLED) : List Event := []

/-- Method `NHD_OLED::noAutoscroll`: empty body. -/
def noAutoscroll (_s : NHD_OLED) : List Event := []

/-- Method `NHD_OLED::leftToRight`: empty body. -/
def leftToRight (_s : NHD_OLED) : List Event := []

/-- Method `NHD_OLED::rightToLeft`: empty body. -/
def rightToLeft (_s : NHD_OLED) : List Event := []

/-- Method `NHD_OLED::createChar`: empty body. -/
def createChar (_s : NHD_OLED) (_num : Byte) (_data : List Byte) : List Event := []

/-! ## Vocabulary of the specification -/

/-- Bit `k` of the byte `x` (bit 0 is the least significant). -/
def bitOf (x : Byte) (k : Nat) : Byte := Byte.ofNat (x.val / 2 ^ k % 2)

/-- The tag byte of a frame: 0xFA marks a data byte, 0xF8 a command byte. -/
def tagByte (isCommand : Byte) : Byte := if isCommand.val = 0 then 0xFA else 0xF8

/-- The 24 bits of the frame with tag byte `tag` and payload `v`, in the order
of transmission: the tag most significant bit first, the low nibble of `v` least
significant bit first, four zeros, the high nibble of `v` least significant bit
first, four zeros. -/
def frameBits (tag v : Byte) : List Byte :=
  [bitOf tag 7, bitOf tag 6, bitOf tag 5, bitOf tag 4,
   bitOf tag 3, bitOf tag 2, bitOf tag 1, bitOf tag 0,
   bitOf v 0, bitOf v 1, bitOf v 2, bitOf v 3, 0, 0, 0, 0,
   bitOf v 4, bitOf v 5, bitOf v 6, bitOf v 7, 0, 0, 0, 0]

/-- Transmission of one bit: clock low, data line set to the bit, clock high. -/
def clockBit (s : NHD_OLED) (bit : Byte) : List Event :=
  [.digitalWrite s.SCLK LOW, .digitalWrite s.SDIN bit, .digitalWrite s.SCLK HIGH]

/-- The pin events of one frame: chip-select driven low, then the 24 bits. -/
def frame (s : NHD_OLED) (tag v : Byte) : List Event :=
  .digitalWrite s.C_S LOW :: (frameBits tag v).flatMap (clockBit s)

/-- The values written to pin `pin`, in order. -/
def writesTo (pin : Byte) (tr : List Event) : List Byte :=
  tr.filterMap (fun e => match e with
    | .digitalWrite p v => if p = pin then some v else none
    | _ => none)

/-- A driver on the default pins with the default 2 x 16 geometry. -/
def sampleDriver : NHD_OLED := {}

/-- Uninitialised locals that happen to hold zero. -/
def zeroStack : Stack := ⟨0, fun _ => 0, fun _ => 0⟩


/-- Uninitialised locals on which the counter of the fill loop of `textClearRow`
starts at 16 and `temp` holds the letter 'X' (0x58) everywhere. -/
def staleStack : Stack := ⟨16, fun _ => 0x58, fun _ => 0⟩

/-- The data bytes of step `i` of the closing phase of the sweep on a line of
`columns` characters: `i` spaces, the left marker, `columns - 2 - 2 i` spaces,
the right marker, `i` spaces. -/
def closingBytes (columns : Nat) (leftSweepChar rightSweepChar : Byte) (i : Nat) : List Byte :=
  List.replicate i (0x20 : Byte) ++ [leftSweepChar]
    ++ List.replicate (columns - 2 - 2 * i) (0x20 : Byte)
    ++ [rightSweepChar] ++ List.replicate i (0x20 : Byte)

/-! ## Strings in program memory -/

/-- The avr-libc call `strcpy_P(buf, src)`, started at position `i`: the
characters of `src` are copied into `buf` up to and including the first NUL.
Here `src` is the contents of program memory from the address that
`pgm_read_word` returns for the string-table entry; running off its end is a
fault, and so is a store outside `buf`. -/
def strcpy_P : List Byte → Int → List Byte → Except Fault (List Byte)
  | [], i, _ => .error (.outOfBounds i i.toNat)
  | c :: rest, i, buf =>
    match store buf i c with
    | .error e => .error e
    | .ok buf1 => if c.val = 0 then .ok buf1 else strcpy_P rest (i + 1) buf1

/-- The scan `while ((buf[len] != 0) and (len < DISP_COLUMNS)) len++;` of the
two program-memory print methods, entered with `len`. -/
def scanLength (s : NHD_OLED) (buf : List Byte) (len : Byte) : Except Fault Byte :=
  match index buf (len.val : Int) with
  | .error e => .error e
  | .ok c =>
    if c.val ≠ 0 ∧ len.val < s.DISP_COLUMNS.val then
      scanLength s buf (Byte.ofNat (len.val + 1))
    else .ok len
termination_by s.DISP_COLUMNS.val - len.val
decreasing_by
  simp only [Byte.ofNat]
  omega

/-- Method `NHD_OLED::textPrintTextFromProgmem`; `stored` is the program memory
that the string-table entry points to and `junk` the contents of the
uninitialised array `buf`. -/
def textPrintTextFromProgmem (s : NHD_OLED) (junk : Nat → Byte) (stored : List Byte) :
    Except Fault (List Event) := do
  let buf : List Byte := (List.range (s.DISP_COLUMNS.val + 1)).map junk
  let buf ← strcpy_P stored 0 buf
  let len ← scanLength s buf 0
  print s buf len

/-- Method `NHD_OLED::textPrintTextFromProgmemCentered`. -/
def textPrintTextFromProgmemCentered (s : NHD_OLED) (g : Stack) (junk : Nat → Byte)
    (stored : List Byte) (row : Byte) : Except Fault (List Event) := do
  let buf : List Byte := (List.range (s.DISP_COLUMNS.val + 1)).map junk
  let buf ← strcpy_P stored 0 buf
  let len ← scanLength s buf 0
  textPrintCentered s g buf len row

/-! ## Calls of the public methods -/

/-- One call of a public method of `class NHD_OLED` with its arguments. -/
inductive Call where
  | begin (pinSCLK pinSDIN pinC_S rows columns : Byte)
  | sendCommand (command : Byte)
  | sendData (data : Byte)
  | setupDisplaySize (rows columns : Byte)
  | setupPins (pinSCLK pinSDIN pinC_S : Byte)
  | setupInit
  | displayControl (display cursor block : Byte)
  | displayOn
  | displayOff
  | textClear
  | cursorHome
  | cursorMoveToRow (rowNumber : Byte)
  | textClearRow (rowNumber : Byte)
  | shift (dc rl : Byte)
  | cursorPos (row column : Byte)
  | print (text : List Byte) (len : Byte)
  | printChar (text : Byte)
  | printAt (text : List Byte) (len r c : Byte)
  | printCharAt (text r c : Byte)
  | textPrintCentered (text : List Byte) (length row : Byte)
  | textPrintRightJustified (text : List Byte) (length row : Byte)
  | textPrintTextFromProgmem (stored : List Byte)
  | textPrintTextFromProgmemCentered (stored : List Byte) (row : Byte)
  | textSweep (text : List Byte) (length row leftSweepChar rightSweepChar : Byte)
      (timeDelay : Nat)
  | clear
  | home
  | setCursor (col row : Byte)
  | write (data : Byte)
  | cursor
  | noCursor
  | blink
  | noBlink
  | display
  | noDisplay
  | scrollDisplayLeft
  | scrollDisplayRight
  | autoscroll
  | noAutoscroll
  | leftToRight
  | rightToLeft
  | createChar (num : Byte) (data : List Byte)

/-- The calls whose methods assign to the members of the object:
`setupDisplaySize`, `setupPins` and `begin` (which calls both). -/
def Call.configures : Call → Bool
  | .begin _ _ _ _ _ => true
  | .setupDisplaySize _ _ => true
  | .setupPins _ _ _ => true
  | _ => false

/-- The object after a call and the events of the call. Only the bodies of
`setupDisplaySize` and `setupPins` contain assignments to members; every other
method reads the object and leaves it as it is. -/
def invoke (g : Stack) (junk : Nat → Byte) (s : NHD_OLED) :
    Call → Except Fault (NHD_OLED × List Event)
  | .begin a b c rows columns => .ok (begin s a b c rows columns)
  | .sendCommand c => .ok (s, sendCommand s c)
  | .sendData d => .ok (s, sendData s d)
  | .setupDisplaySize rows columns => .ok (setupDisplaySize s rows columns, [])
  | .setupPins a b c => .ok (setupPins s a b c)
  | .setupInit => .ok (s, setupInit s)
  | .displayControl d c b => .ok (s, displayControl s d c b)
  | .displayOn => .ok (s, displayOn s)
  | .displayOff => .ok (s, displayOff s)
  | .textClear => .ok (s, textClear s)
  | .cursorHome => .ok (s, cursorHome s)
  | .cursorMoveToRow r => (cursorMoveToRow s r).map (fun t => (s, t))
  | .textClearRow r => (textClearRow s g r).map (fun t => (s, t))
  | .shift dc rl => .ok (s, shift s dc rl)
  | .cursorPos r c => (cursorPos s r c).map (fun t => (s, t))
  | .print text len => (print s text len).map (fun t => (s, t))
  | .printChar c => .ok (s, printChar s c)
  | .printAt text len r c => (printAt s text len r c).map (fun t => (s, t))
  | .printCharAt text r c => (printCharAt s text r c).map (fun t => (s, t))
  | .textPrintCentered text len row =>
    (textPrintCentered s g text len row).map (fun t => (s, t))
  | .textPrintRightJustified text len row =>
    (textPrintRightJustified s g text len row).map (fun t => (s, t))
  | .textPrintTextFromProgmem stored =>
    (textPrintTextFromProgmem s junk stored).map (fun t => (s, t))
  | .textPrintTextFromProgmemCentered stored row =>
    (textPrintTextFromProgmemCentered s g junk stored row).map (fun t => (s, t))
  | .textSweep text len row l r td => (textSweep s g text len row l r td).map (fun t => (s, t))
  | .clear => .ok (s, clear s)
  | .home => .ok (s, home s)
  | .setCursor col row => (setCursor s col row).map (fun t => (s, t))
  | .write d => .ok (s, write s d)
  | .cursor => .ok (s, cursor s)
  | .noCursor => .ok (s, noCursor s)
  | .blink => .ok (s, blink s)
  | .noBlink => .ok (s, noBlink s)
  | .display => .ok (s, display s)
  | .noDisplay => .ok (s, noDisplay s)
  | .scrollDisplayLeft => .ok (s, scrollDisplayLeft s)
  | .scrollDisplayRight => .ok (s, scrollDisplayRight s)
  | .autoscroll => .ok (s, autoscroll s)
  | .noAutoscroll => .ok (s, noAutoscroll s)
  | .leftToRight => .ok (s, leftToRight s)
  | .rightToLeft => .ok (s, rightToLeft s)
  | .createChar num data => .ok (s, createChar s num data)

/-! ## Vocabulary of the specification, continued -/

/-- The data bytes of one pass of the second loop of `textSweep` entered with
`stepnum`, on a line of `columns` characters with buffer `buf`: `outer` spaces,
the right marker, `inner` bytes of `buf` from `start`, the left marker, `outer`
spaces, with `outer`, `inner` and `start` the bytes that the loop computes. -/
def openingPassBytes (columns : Nat) (buf : List Byte) (leftSweepChar rightSweepChar : Byte)
    (stepnum : Byte) : List Byte :=
  List.replicate stepnum.val (0x20 : Byte) ++ [rightSweepChar]
    ++ (buf.drop (Byte.ofNat (stepnum.val + 1)).val).take
        (Byte.ofInt ((columns : Int) - 2 - (stepnum.val : Int) * 2)).val
    ++ [leftSweepChar] ++ List.replicate stepnum.val (0x20 : Byte)

/-- One frame of the sweep animation: the events `move` of `cursorMoveToRow`,
the data frames of `bytes`, and a delay of `timeDelay`. -/
def sweepFrame (s : NHD_OLED) (move : List Event) (timeDelay : Nat) (bytes : List Byte) :
    List Event :=
  move ++ bytes.flatMap (sendData s) ++ [Event.delay timeDelay]

/-- The data bytes of step `i` of the opening phase of the sweep on a line of
`columns` characters with centred-text buffer `buf`: `i` spaces, the right
marker, the slice of `buf` from offset `i + 1` of width `columns - 2 - 2 i`, the
left marker, `i` spaces. -/
def openingBytes (columns : Nat) (buf : List Byte) (leftSweepChar rightSweepChar : Byte)
    (i : Nat) : List Byte :=
  List.replicate i (0x20 : Byte) ++ [rightSweepChar]
    ++ (buf.drop (i + 1)).take (columns - 2 - 2 * i)
    ++ [leftSweepChar] ++ List.replicate i (0x20 : Byte)

/-- A 2-row display with the odd width of 5 columns. -/
def oddDriver : NHD_OLED := { DISP_COLUMNS := 5 }

/-- The 34 frames of the initialisation sequence with row-configuration
commands `X` and `Y`; `true` marks a command frame, `false` a data frame. -/
def initSequence (X Y : Byte) : List (Bool × Byte) :=
  [(true, 0x2A), (true, 0x71), (false, 0x5C),
   (true, 0x28), (true, 0x08),
   (true, 0x2A), (true, 0x79), (true, 0xD5), (true, 0x70), (true, 0x78),
   (true, 0x28), (true, X), (true, Y),
   (true, 0x2A), (true, 0x72), (false, 0x00),
   (true, 0x06), (true, 0x20),
   (true, 0x79), (true, 0xDA), (true, 0x10), (true, 0xDC), (true, 0x00), (true, 0x81),
   (true, 0x7F), (true, 0xD9), (true, 0xF1), (true, 0xDB), (true, 0x40), (true, 0x78),
   (true, 0x28), (true, 0x01), (true, 0x80), (true, 0x0C)]

/-- The events of a frame of the initialisation sequence. -/
def emitFrame (s : NHD_OLED) (f : Bool × Byte) : List Event :=
  if f.1 then sendCommand s f.2 else sendData s f.2

/-- The first row-configuration command: 0x08 for the group of 1 or 2 rows,
0x09 for the group of 3 or 4 rows. -/
def rowGroupCommand (rows : Byte) : Byte := if rows.val < 3 then 0x08 else 0x09

/-- The second row-configuration command: 0x20 for the first row count of the
group (1 or 3 rows), 0x28 for the second. -/
def rowCountCommand (rows : Byte) : Byte :=
  if rows.val = 1 ∨ rows.val = 3 then 0x20 else 0x28

/-- The elements of `l` that follow the `n`-th occurrence (counted from 1) of
`x`; empty when `x` occurs fewer than `n` times. -/
def afterOccurrence {α : Type} [DecidableEq α] (x : α) : Nat → List α → List α
  | _, [] => []
  | 0, _ :: _ => []
  | n + 1, y :: l =>
    if y = x then (if n = 0 then l else afterOccurrence x n l)
    else afterOccurrence x (n + 1) l

/-- Whether an event is a call of `delay`. -/
def isDelay : Event → Bool
  | .delay _ => true
  | _ => false


/-! ## Vocabulary of the specification, decoding and addressing -/

/-- The 24 values that a frame puts on the data line: the value of the second
write of each of the 24 clock cycles that follow the chip-select write. -/
def emittedBits (tr : List Event) : List Byte :=
  (List.range 24).filterMap (fun j =>
    match (tr[3 * j + 2]? : Option Event) with
    | some (Event.digitalWrite _ b) => some b
    | _ => none)

/-- The decoder of a 24-bit frame: the byte is rebuilt from transmitted bits
8-11 (as bits 0-3) and 16-19 (as bits 4-7), the flag is `true` (command) when
transmitted bit 6 is 0. -/
def decodeFrame (bits : List Byte) : Byte × Bool :=
  (Byte.ofNat ((bits.getD 8 0).val + 2 * (bits.getD 9 0).val + 4 * (bits.getD 10 0).val
      + 8 * (bits.getD 11 0).val + 16 * (bits.getD 16 0).val + 32 * (bits.getD 17 0).val
      + 64 * (bits.getD 18 0).val + 128 * (bits.getD 19 0).val),
    decide ((bits.getD 6 1).val = 0))

/-- A display of 1 row and 33 columns. -/
def oneRowWide : NHD_OLED := { DISP_ROWS := 1, DISP_COLUMNS := 33 }

end NHD_OLED

/-! ## The bit-frame encoder -/

namespace NHD_OLED

theorem SPIBitBang_eq_frame (s : NHD_OLED) (v c : Byte) :
    SPIBitBang s v c = frame s (tagByte c) v := by
  have hv := v.isLt
  by_cases hc : c.val = 0
  · simp [SPIBitBang, times, frame, frameBits, clockBit, tagByte, hc, bitOf, Byte.ofNat,
      Nat.shiftRight_eq_div_pow, LOW, HIGH]
    refine ⟨by decide, by decide, by decide, by decide, by decide, by decide, by decide,
      by decide, ?_⟩
    omega
  · simp [SPIBitBang, times, frame, frameBits, clockBit, tagByte, hc, bitOf, Byte.ofNat,
      Nat.shiftRight_eq_div_pow, LOW, HIGH]
    refine ⟨by decide, by decide, by decide, by decide, by decide, by decide, by decide,
      by decide, ?_⟩
    omega

theorem frame_length (s : NHD_OLED) (tag v : Byte) : (frame s tag v).length = 73 := by
  simp [frame, frameBits, clockBit]

theorem frame_only_writes (s : NHD_OLED) (tag v : Byte) :
    ∀ e ∈ frame s tag v, ∃ pin val, e = Event.digitalWrite pin val := by
  intro e he
  simp only [frame, frameBits, clockBit, List.flatMap_cons, List.flatMap_nil, List.mem_cons,
    List.mem_append, List.mem_nil_iff, List.cons_append, List.nil_append, or_false] at he
  rcases he with h | h | h | h | h | h | h | h | h | h | h | h | h | h | h | h | h | h | h | h
    | h | h | h | h | h | h | h | h | h | h | h | h | h | h | h | h | h | h | h | h
    | h | h | h | h | h | h | h | h | h | h | h | h | h | h | h | h | h | h | h | h
    | h | h | h | h | h | h | h | h | h | h | h | h | h <;> exact ⟨_, _, h⟩

theorem writesTo_frame (s : NHD_OLED) (tag v : Byte) (h1 : s.SDIN ≠ s.SCLK)
    (h2 : s.SDIN ≠ s.C_S) : writesTo s.SDIN (frame s tag v) = frameBits tag v := by
  simp [writesTo, frame, frameBits, clockBit, List.filterMap_cons, Ne.symm h1, Ne.symm h2]

/-- C1: for every byte `v` and flag `isCommand`, the values that one call of
`SPIBitBang` writes to the data pin (distinct from the clock and chip-select
pins) are exactly 24: the bits of the tag byte (0xF8 for a non-zero flag, 0xFA
for a zero flag) from bit 7 down to bit 0, then bits 0, 1, 2, 3 of `v`, four
zeros, bits 4, 5, 6, 7 of `v`, and four zeros. -/
theorem SPIBitBang_data_line (s : NHD_OLED) (v isCommand : Byte)
    (h1 : s.SDIN ≠ s.SCLK) (h2 : s.SDIN ≠ s.C_S) :
    writesTo s.SDIN (SPIBitBang s v isCommand) =
        (if isCommand.val ≠ 0 then [1, 1, 1, 1, 1, 0, 0, 0] else [1, 1, 1, 1, 1, 0, 1, 0])
        ++ [bitOf v 0, bitOf v 1, bitOf v 2, bitOf v 3, 0, 0, 0, 0]
        ++ [bitOf v 4, bitOf v 5, bitOf v 6, bitOf v 7, 0, 0, 0, 0]
    ∧ (writesTo s.SDIN (SPIBitBang s v isCommand)).length = 24
    ∧ ([7, 6, 5, 4, 3, 2, 1, 0].map (bitOf 0xF8) = [1, 1, 1, 1, 1, 0, 0, 0])
    ∧ ([7, 6, 5, 4, 3, 2, 1, 0].map (bitOf 0xFA) = [1, 1, 1, 1, 1, 0, 1, 0]) := by
  rw [SPIBitBang_eq_frame, writesTo_frame s _ v h1 h2]
  refine ⟨?_, by simp [frameBits], by decide, by decide⟩
  have a7 : bitOf 0xFA 7 = 1 := by decide
  have a6 : bitOf 0xFA 6 = 1 := by decide
  have a5 : bitOf 0xFA 5 = 1 := by decide
  have a4 : bitOf 0xFA 4 = 1 := by decide
  have a3 : bitOf 0xFA 3 = 1 := by decide
  have a2 : bitOf 0xFA 2 = 0 := by decide
  have a1 : bitOf 0xFA 1 = 1 := by decide
  have a0 : bitOf 0xFA 0 = 0 := by decide
  have b7 : bitOf 0xF8 7 = 1 := by decide
  have b6 : bitOf 0xF8 6 = 1 := by decide
  have b5 : bitOf 0xF8 5 = 1 := by decide
  have b4 : bitOf 0xF8 4 = 1 := by decide
  have b3 : bitOf 0xF8 3 = 1 := by decide
  have b2 : bitOf 0xF8 2 = 0 := by decide
  have b1 : bitOf 0xF8 1 = 0 := by decide
  have b0 : bitOf 0xF8 0 = 0 := by decide
  by_cases hc : isCommand.val = 0
  · simp [tagByte, hc, frameBits, a7, a6, a5, a4, a3, a2, a1, a0]
  · simp [tagByte, hc, frameBits, b7, b6, b5, b4, b3, b2, b1, b0]

/-- Witness of `SPIBitBang_data_line`: the command byte 0xA3 on the default pins. -/
theorem SPIBitBang_data_line_witness :
    sampleDriver.SDIN ≠ sampleDriver.SCLK ∧ sampleDriver.SDIN ≠ sampleDriver.C_S
    ∧ writesTo sampleDriver.SDIN (SPIBitBang sampleDriver 0xA3 1) =
        [1, 1, 1, 1, 1, 0, 0, 0, 1, 1, 0, 0, 0, 0, 0, 0, 0, 1, 0, 1, 0, 0, 0, 0] :=
  ⟨by decide, by decide,
    (SPIBitBang_data_line sampleDriver 0xA3 1 (by decide) (by decide)).1.trans (by decide)⟩

/-- C2: the pin events of one `SPIBitBang` call are one write of LOW to
chip-select followed by 24 triples (clock LOW, data := bit, clock HIGH) and
nothing else: 73 events, all of them pin writes (no delay), the last one the
clock driven HIGH; with chip-select on a pin of its own, the frame never writes
HIGH to chip-select. -/
theorem SPIBitBang_trace (s : NHD_OLED) (v isCommand : Byte) :
    (SPIBitBang s v isCommand =
        Event.digitalWrite s.C_S LOW ::
          (frameBits (tagByte isCommand) v).flatMap (fun bit =>
            [Event.digitalWrite s.SCLK LOW, Event.digitalWrite s.SDIN bit,
             Event.digitalWrite s.SCLK HIGH])
      ∧ (frameBits (tagByte isCommand) v).length = 24
      ∧ (SPIBitBang s v isCommand).length = 73
      ∧ (∀ e ∈ SPIBitBang s v isCommand, ∃ pin val, e = Event.digitalWrite pin val)
      ∧ (SPIBitBang s v isCommand).getLast? = some (Event.digitalWrite s.SCLK HIGH))
    ∧ (s.C_S ≠ s.SCLK → s.C_S ≠ s.SDIN →
        Event.digitalWrite s.C_S HIGH ∉ SPIBitBang s v isCommand) := by
  rw [SPIBitBang_eq_frame]
  refine ⟨⟨rfl, by simp [frameBits], frame_length _ _ _, frame_only_writes _ _ _, ?_⟩, ?_⟩
  · simp [frame, frameBits, clockBit]
  · intro h1 h2
    have h3 : LOW ≠ HIGH := by decide
    simp [frame, frameBits, clockBit, h1, h2, h3.symm]

/-- Witness of `SPIBitBang_trace` on the default pins (clock 0, data 1,
chip-select 2). -/
theorem SPIBitBang_trace_witness :
    sampleDriver.C_S ≠ sampleDriver.SCLK ∧ sampleDriver.C_S ≠ sampleDriver.SDIN
    ∧ Event.digitalWrite sampleDriver.C_S HIGH ∉ SPIBitBang sampleDriver 0xA3 1 :=
  ⟨by decide, by decide, (SPIBitBang_trace sampleDriver 0xA3 1).2 (by decide) (by decide)⟩

/-- C3: `sendCommand b` emits one frame with tag byte 0xF8 and payload `b`,
`sendData b` one frame with tag byte 0xFA and payload `b`; the bits of the two
frames agree everywhere but at the 7th transmitted bit (index 6, bit 1 of the
tag), which is 0 in the command frame and 1 in the data frame. -/
theorem sendCommand_sendData_frames (s : NHD_OLED) (b : Byte) :
    sendCommand s b = frame s 0xF8 b
    ∧ sendData s b = frame s 0xFA b
    ∧ (frameBits 0xF8 b).length = 24 ∧ (frameBits 0xFA b).length = 24
    ∧ (∀ k : Nat, k ≠ 6 → (frameBits 0xF8 b)[k]? = (frameBits 0xFA b)[k]?)
    ∧ (frameBits 0xF8 b)[6]? = some (bitOf 0xF8 1) ∧ bitOf 0xF8 1 = 0
    ∧ (frameBits 0xFA b)[6]? = some (bitOf 0xFA 1) ∧ bitOf 0xFA 1 = 1 := by
  refine ⟨?_, ?_, by simp [frameBits], by simp [frameBits], ?_, by simp [frameBits],
    by decide, by simp [frameBits], by decide⟩
  · rw [sendCommand, SPIBitBang_eq_frame]; rfl
  · rw [sendData, SPIBitBang_eq_frame]; rfl
  · intro k hk
    have a7 : bitOf 0xFA 7 = bitOf 0xF8 7 := by decide
    have a6 : bitOf 0xFA 6 = bitOf 0xF8 6 := by decide
    have a5 : bitOf 0xFA 5 = bitOf 0xF8 5 := by decide
    have a4 : bitOf 0xFA 4 = bitOf 0xF8 4 := by decide
    have a3 : bitOf 0xFA 3 = bitOf 0xF8 3 := by decide
    have a2 : bitOf 0xFA 2 = bitOf 0xF8 2 := by decide
    have a0 : bitOf 0xFA 0 = bitOf 0xF8 0 := by decide
    rcases Nat.lt_or_ge k 24 with hlt | hge
    · interval_cases k <;> first | exact absurd rfl hk | simp [frameBits, a7, a6, a5, a4, a3, a2, a0]
    · rw [List.getElem?_eq_none (by simpa [frameBits] using hge),
        List.getElem?_eq_none (by simpa [frameBits] using hge)]

/-- Witness of `sendCommand_sendData_frames`: the first transmitted bit of the
two frames for 0x41 is the same. -/
theorem sendCommand_sendData_frames_witness :
    (0 : Nat) ≠ 6 ∧ (frameBits 0xF8 0x41)[0]? = (frameBits 0xFA 0x41)[0]? :=
  ⟨by decide, (sendCommand_sendData_frames sampleDriver 0x41).2.2.2.2.1 0 (by decide)⟩

/-! ## Cursor addressing -/

theorem index_row_command (row : Byte) (h : row.val < 4) :
    ∃ base : Byte, ([0x80, 0xA0, 0xC0, 0xE0] : List Byte)[row.val]? = some base
      ∧ index row_command (row.val : Int) = .ok base := by
  obtain ⟨r, hr⟩ := row
  simp only at h
  interval_cases r <;> exact ⟨_, rfl, rfl⟩

/-- C4: on a display with 1 to 4 rows and at least one column, `cursorPos` at an
in-range position emits exactly one command frame, with command byte
`(base[row] + column) mod 256` for `base = [0x80, 0xA0, 0xC0, 0xE0]`, and no
delay. -/
theorem cursorPos_command (s : NHD_OLED) (row column : Byte)
    (hrows : 1 ≤ s.DISP_ROWS.val ∧ s.DISP_ROWS.val ≤ 4) (_hcols : 1 ≤ s.DISP_COLUMNS.val)
    (hrow : row.val < s.DISP_ROWS.val) (hcol : column.val < s.DISP_COLUMNS.val) :
    ∃ base b : Byte, ([0x80, 0xA0, 0xC0, 0xE0] : List Byte)[row.val]? = some base
      ∧ b.val = (base.val + column.val) % 256
      ∧ cursorPos s row column = .ok (sendCommand s b)
      ∧ sendCommand s b = frame s 0xF8 b
      ∧ ∀ ms, Event.delay ms ∉ sendCommand s b := by
  obtain ⟨base, hb, hi⟩ := index_row_command row (by omega)
  refine ⟨base, Byte.ofNat (base.val + column.val), hb, rfl, ?_, ?_, ?_⟩
  · have h1 : ¬ (row.val ≥ s.DISP_ROWS.val) := by omega
    have h2 : ¬ (column.val ≥ s.DISP_COLUMNS.val) := by omega
    simp only [cursorPos, h1, h2, if_false, hi, bind, Except.bind, pure, Except.pure]
  · rw [sendCommand, SPIBitBang_eq_frame]; rfl
  · intro ms hm
    rw [sendCommand, SPIBitBang_eq_frame] at hm
    obtain ⟨p, w, hpw⟩ := frame_only_writes _ _ _ _ hm
    cases hpw

/-- Witness of `cursorPos_command`: row 1, column 3 of the 2 x 16 display. -/
theorem cursorPos_command_witness :
    ∃ base b : Byte, ([0x80, 0xA0, 0xC0, 0xE0] : List Byte)[(1 : Byte).val]? = some base
      ∧ b.val = (base.val + (3 : Byte).val) % 256
      ∧ cursorPos sampleDriver 1 3 = .ok (sendCommand sampleDriver b)
      ∧ sendCommand sampleDriver b = frame sampleDriver 0xF8 b
      ∧ ∀ ms, Event.delay ms ∉ sendCommand sampleDriver b :=
  cursorPos_command sampleDriver 1 3 (by decide) (by decide) (by decide) (by decide)

/-- C5: on a display with 1 to 4 rows and at least one column, `cursorPos` at any
pair of bytes behaves as `cursorPos` at the pair clamped to the last row and the
last column. -/
theorem cursorPos_clamps (s : NHD_OLED) (row column r c : Byte)
    (hrows : 1 ≤ s.DISP_ROWS.val ∧ s.DISP_ROWS.val ≤ 4) (hcols : 1 ≤ s.DISP_COLUMNS.val)
    (hr : r.val = min row.val (s.DISP_ROWS.val - 1))
    (hc : c.val = min column.val (s.DISP_COLUMNS.val - 1)) :
    cursorPos s row column = cursorPos s r c := by
  have hR := s.DISP_ROWS.isLt
  have hC := s.DISP_COLUMNS.isLt
  have e1 : (if row.val ≥ s.DISP_ROWS.val then Byte.ofInt ((s.DISP_ROWS.val : Int) - 1)
      else row) = r := by
    apply Fin.ext
    split_ifs with h
    · simp only [Byte.ofInt]; omega
    · omega
  have e2 : (if column.val ≥ s.DISP_COLUMNS.val then
      Byte.ofInt ((s.DISP_COLUMNS.val : Int) - 1) else column) = c := by
    apply Fin.ext
    split_ifs with h
    · simp only [Byte.ofInt]; omega
    · omega
  have e3 : (if r.val ≥ s.DISP_ROWS.val then Byte.ofInt ((s.DISP_ROWS.val : Int) - 1)
      else r) = r := by
    rw [if_neg (by omega)]
  have e4 : (if c.val ≥ s.DISP_COLUMNS.val then
      Byte.ofInt ((s.DISP_COLUMNS.val : Int) - 1) else c) = c := by
    rw [if_neg (by omega)]
  simp only [cursorPos, e1, e2, e3, e4]

/-- Witness of `cursorPos_clamps`: on the 2-row, 16-column display
`cursorPos(5, 3)` behaves as `cursorPos(1, 3)`, the command 0xA3. -/
theorem cursorPos_clamps_witness :
    cursorPos sampleDriver 5 3 = cursorPos sampleDriver 1 3
    ∧ cursorPos sampleDriver 1 3 = .ok (sendCommand sampleDriver 0xA3) :=
  ⟨cursorPos_clamps sampleDriver 5 3 1 3 (by decide) (by decide) (by decide) (by decide),
    by decide⟩

end NHD_OLED

/-! ## Loops and buffers -/

theorem forLoop_inv {σ : Type} (body : Int → σ → Except Fault σ) :
    ∀ (n : Nat) (Inv : Nat → σ → Prop) (lo : Int) (init : σ), Inv 0 init →
      (∀ k st, k < n → Inv k st → ∃ st1, body (lo + (k : Int)) st = .ok st1 ∧ Inv (k + 1) st1) →
      ∃ st1, forLoop body n lo init = .ok st1 ∧ Inv n st1 := by
  intro n
  induction n with
  | zero => intro Inv lo init h0 _; exact ⟨init, rfl, h0⟩
  | succ n ih =>
    intro Inv lo init h0 hstep
    obtain ⟨st1, hb, h1⟩ := hstep 0 init (Nat.succ_pos n) h0
    simp only [Nat.cast_zero, add_zero] at hb
    obtain ⟨st2, hl, h2⟩ := ih (fun k st => Inv (k + 1) st) (lo + 1) st1 h1 (by
      intro k st hk hinv
      obtain ⟨st3, hb3, h3⟩ := hstep (k + 1) st (Nat.succ_lt_succ hk) hinv
      refine ⟨st3, ?_, h3⟩
      rw [← hb3]
      congr 1
      push_cast
      ring)
    exact ⟨st2, by simp only [forLoop, hb, hl], h2⟩

theorem times_append {α : Type} (c : List α) :
    ∀ (n : Nat) (out : List α),
      times n (fun o => o ++ c) out = out ++ (List.replicate n c).flatten := by
  intro n
  induction n with
  | zero => intro out; simp [times]
  | succ n ih => intro out; simp [times, ih, List.replicate_succ]

theorem index_nat {α : Type} (a : List α) (k : Nat) (h : k < a.length) :
    index a (k : Int) = .ok (a.get ⟨k, h⟩) := by
  have h0 : ¬ ((k : Int) < 0) := by omega
  simp [index, h0, List.getElem?_eq_getElem h]

theorem store_nat {α : Type} (a : List α) (k : Nat) (v : α) (h : k < a.length) :
    store a (k : Int) v = .ok (a.set k v) := by
  have h0 : (0 : Int) ≤ (k : Int) ∧ (k : Int) < (a.length : Int) := by omega
  simp [store, h0]

/-- A loop that stores `f k` at `base + k` for `k < n`. -/
theorem storeLoop (body : Int → List Byte → Except Fault (List Byte)) (f : Nat → Byte)
    (n base : Nat) (lo : Int) (line0 : List Byte) (hfit : base + n ≤ line0.length)
    (hbody : ∀ k line, k < n → line.length = line0.length →
      body (lo + (k : Int)) line = .ok (line.set (base + k) (f k))) :
    ∃ L : List Byte, forLoop body n lo line0 = .ok L ∧ L.length = line0.length
      ∧ ∀ j, L[j]? = if base ≤ j ∧ j < base + n then some (f (j - base)) else line0[j]? := by
  obtain ⟨L, hL, hlen, hpt⟩ := forLoop_inv body n
    (fun k (buf : List Byte) => buf.length = line0.length
      ∧ ∀ j, buf[j]? = if base ≤ j ∧ j < base + k then some (f (j - base)) else line0[j]?)
    lo line0 ⟨rfl, fun j => by
      have h0 : ¬ (base ≤ j ∧ j < base + 0) := by omega
      show _ = ite _ _ _
      rw [if_neg h0]⟩
    (by
      intro k line hk ⟨hlen, hpt⟩
      refine ⟨_, hbody k line hk hlen, by simp [hlen], ?_⟩
      intro j
      rw [List.getElem?_set]
      by_cases hj : base + k = j
      · subst hj
        have h1 : base + k < line.length := by omega
        have h2 : base ≤ base + k ∧ base + k < base + (k + 1) := by omega
        simp [h1, h2]
      · rw [if_neg hj, hpt j]
        by_cases h3 : base ≤ j ∧ j < base + k
        · have h4 : base ≤ j ∧ j < base + (k + 1) := by omega
          rw [if_pos h3, if_pos h4]
        · have h4 : ¬ (base ≤ j ∧ j < base + (k + 1)) := by omega
          rw [if_neg h3, if_neg h4])
  exact ⟨L, hL, hlen, hpt⟩

namespace NHD_OLED

theorem print_eq (s : NHD_OLED) (text : List Byte) (len : Byte) (h : text.length = len.val) :
    print s text len = .ok (text.flatMap (sendData s)) := by
  obtain ⟨out, ho, hinv⟩ := forLoop_inv
    (fun i out => do
      let c ← index text i
      pure (out ++ sendData s c)) len.val
    (fun k out => out = (text.take k).flatMap (sendData s)) 0 [] (by simp)
    (by
      intro k out hk hinv
      have hk2 : k < text.length := by omega
      refine ⟨out ++ sendData s (text.get ⟨k, hk2⟩), ?_, ?_⟩
      · simp only [zero_add, index_nat text k hk2, bind, Except.bind, pure, Except.pure]
      · show _ = _
        rw [List.take_succ, List.getElem?_eq_getElem hk2, List.flatMap_append]
        simp [List.flatMap_cons, hinv])
  rw [print, ho, hinv, ← h, List.take_length]

end NHD_OLED

theorem clearLoop (init : List Byte) :
    forLoop (fun i buf => store buf i (0x20 : Byte)) init.length 0 init
      = .ok (List.replicate init.length 0x20) := by
  obtain ⟨L, hL, hlen, hpt⟩ := storeLoop (fun i buf => store buf i (0x20 : Byte))
    (fun _ => 0x20) init.length 0 0 init (by omega) (by
      intro k buf hk hlen
      simp only [zero_add]
      exact store_nat buf k _ (by omega))
  rw [hL]
  congr 1
  apply List.ext_getElem?
  intro j
  rw [hpt j]
  by_cases hj : j < init.length
  · have h1 : 0 ≤ j ∧ j < 0 + init.length := by omega
    rw [if_pos h1, List.getElem?_replicate, if_pos hj]
  · have h1 : ¬ (0 ≤ j ∧ j < 0 + init.length) := by omega
    rw [if_neg h1, List.getElem?_replicate, if_neg hj]
    exact List.getElem?_eq_none (by omega)

theorem copyLoop (text : List Byte) (off cols : Nat) (hfit : off + text.length ≤ cols) :
    ∃ L : List Byte,
      forLoop (fun i buf => do
        let c ← index text i
        store buf ((off : Int) + i) c) text.length 0 (List.replicate cols 0x20) = .ok L
      ∧ L.length = cols
      ∧ (∀ k (hk : k < text.length), L[off + k]? = some (text.get ⟨k, hk⟩))
      ∧ (∀ j, j < cols → (j < off ∨ off + text.length ≤ j) → L[j]? = some 0x20) := by
  obtain ⟨L, hL, hlen, hpt⟩ := storeLoop (fun i buf => do
        let c ← index text i
        store buf ((off : Int) + i) c)
    (fun k => text.getD k 0x20) text.length off 0 (List.replicate cols 0x20)
    (by simpa using hfit) (by
      intro k buf hk hlen
      simp only [zero_add, index_nat text k hk, bind, Except.bind]
      have e : (off : Int) + (k : Int) = ((off + k : Nat) : Int) := by push_cast; rfl
      rw [e, store_nat buf (off + k) _ (by simp at hlen; omega)]
      simp [List.getD_eq_getElem?_getD, List.getElem?_eq_getElem hk])
  refine ⟨L, hL, by simpa using hlen, ?_, ?_⟩
  · intro k hk
    have h1 : off ≤ off + k ∧ off + k < off + text.length := by omega
    rw [hpt, if_pos h1]
    simp [List.getD_eq_getElem?_getD, List.getElem?_eq_getElem hk]
  · intro j hj hout
    have h1 : ¬ (off ≤ j ∧ j < off + text.length) := by omega
    rw [hpt, if_neg h1, List.getElem?_replicate, if_pos hj]

namespace NHD_OLED

theorem cursorMoveToRow_ok (s : NHD_OLED) (row : Byte) (h : row.val < 4) :
    ∃ base : Byte, ([0x80, 0xA0, 0xC0, 0xE0] : List Byte)[row.val]? = some base
      ∧ cursorMoveToRow s row = .ok (sendCommand s base ++ [Event.delay 10]) := by
  obtain ⟨base, hb, hi⟩ := index_row_command row h
  exact ⟨base, hb, by simp only [cursorMoveToRow, hi, bind, Except.bind, pure, Except.pure]⟩

theorem centeredBuffer_ok (s : NHD_OLED) (g : Stack) (text : List Byte) (length : Byte)
    (htext : text.length = length.val) (hlen : length.val ≤ s.DISP_COLUMNS.val) :
    ∃ L : List Byte, centeredBuffer s g text length = .ok L
      ∧ L.length = s.DISP_COLUMNS.val
      ∧ (∀ k (hk : k < text.length),
          L[(s.DISP_COLUMNS.val - length.val) / 2 + k]? = some (text.get ⟨k, hk⟩))
      ∧ (∀ j, j < s.DISP_COLUMNS.val →
          (j < (s.DISP_COLUMNS.val - length.val) / 2
            ∨ (s.DISP_COLUMNS.val - length.val) / 2 + length.val ≤ j) → L[j]? = some 0x20) := by
  have e : Int.tdiv ((s.DISP_COLUMNS.val : Int) - (length.val : Int)) 2
      = (((s.DISP_COLUMNS.val - length.val) / 2 : Nat) : Int) := by
    rw [Int.tdiv_eq_ediv (by omega) (by omega)]
    omega
  obtain ⟨L, hL, h1, h2, h3⟩ := copyLoop text ((s.DISP_COLUMNS.val - length.val) / 2)
    s.DISP_COLUMNS.val (by omega)
  have hc := clearLoop ((List.range s.DISP_COLUMNS.val).map g.line)
  simp only [List.length_map, List.length_range] at hc
  refine ⟨L, ?_, h1, h2, ?_⟩
  · rw [htext] at hL
    simp only [bind, Except.bind] at hL
    simp only [centeredBuffer, hc, bind, Except.bind, e]
    exact hL
  · intro j hj hout
    exact h3 j hj (by omega)


/-- The contents of `temp` when `textClearRow` prints it: positions from the
starting value of the counter on hold a space, the positions below it are
untouched. -/
theorem textClearRow_eq (s : NHD_OLED) (g : Stack) (row : Byte) (hi : 0 ≤ g.i) :
    textClearRow s g row = (cursorMoveToRow s row).map (fun move =>
      move ++ ((List.range s.DISP_COLUMNS.val).map
        (fun (j : Nat) => if g.i ≤ (j : Int) then (0x20 : Byte) else g.temp j)).flatMap (sendData s)) := by
  have hfill : forLoop (fun i temp => store temp i (0x20 : Byte))
      ((s.DISP_COLUMNS.val : Int) - g.i).toNat g.i ((List.range s.DISP_COLUMNS.val).map g.temp)
      = .ok ((List.range s.DISP_COLUMNS.val).map
        (fun (j : Nat) => if g.i ≤ (j : Int) then (0x20 : Byte) else g.temp j)) := by
    obtain ⟨b, hb⟩ : ∃ b : Nat, g.i = (b : Int) := ⟨g.i.toNat, by omega⟩
    rw [hb]
    by_cases hc : s.DISP_COLUMNS.val ≤ b
    · have h0 : ((s.DISP_COLUMNS.val : Int) - (b : Int)).toNat = 0 := by omega
      rw [h0]
      simp only [forLoop]
      congr 1
      apply List.map_congr_left
      intro j hj
      have hj2 : j < s.DISP_COLUMNS.val := List.mem_range.mp hj
      rw [if_neg (by omega)]
    · obtain ⟨L, hL, hlen, hpt⟩ := storeLoop (fun i temp => store temp i (0x20 : Byte))
        (fun _ => 0x20) ((s.DISP_COLUMNS.val : Int) - (b : Int)).toNat b (b : Int)
        ((List.range s.DISP_COLUMNS.val).map g.temp) (by simp; omega) (by
          intro k buf hk hlen
          have e : (b : Int) + (k : Int) = ((b + k : Nat) : Int) := by push_cast; rfl
          rw [e]
          exact store_nat buf (b + k) _ (by simp at hlen; omega))
      rw [hL]
      congr 1
      apply List.ext_getElem?
      intro j
      rw [hpt j]
      by_cases hj : j < s.DISP_COLUMNS.val
      · rw [List.getElem?_map, List.getElem?_map, List.getElem?_range hj]
        by_cases hbj : b ≤ j
        · rw [if_pos (by omega)]
          simp only [Option.map_some']
          rw [if_pos (by omega)]
        · rw [if_neg (by omega)]
          simp only [Option.map_some']
          rw [if_neg (by omega)]
      · rw [if_neg (by omega), List.getElem?_eq_none (by simp; omega),
          List.getElem?_eq_none (by simp; omega)]
  simp only [textClearRow, hfill, bind, Except.bind, pure, Except.pure]
  cases hm : cursorMoveToRow s row with
  | error e => rfl
  | ok move =>
    simp only [Except.map]
    rw [print_eq s _ s.DISP_COLUMNS (by simp)]

/-- With the counter of the fill loop starting at zero, `textClearRow` moves
to the row and sends `columns` spaces. -/
theorem textClearRow_zero (s : NHD_OLED) (g : Stack) (row : Byte) (hi : g.i = 0) :
    textClearRow s g row = (cursorMoveToRow s row).map (fun move =>
      move ++ (List.replicate s.DISP_COLUMNS.val (0x20 : Byte)).flatMap (sendData s)) := by
  rw [textClearRow_eq s g row (by omega)]
  have e : (List.range s.DISP_COLUMNS.val).map
      (fun (j : Nat) => if g.i ≤ (j : Int) then (0x20 : Byte) else g.temp j)
      = List.replicate s.DISP_COLUMNS.val (0x20 : Byte) := by
    apply List.ext_getElem?
    intro j
    by_cases hj : j < s.DISP_COLUMNS.val
    · rw [List.getElem?_map, List.getElem?_range hj, List.getElem?_replicate, if_pos hj]
      simp only [Option.map_some']
      rw [if_pos (by omega)]
    · rw [List.getElem?_eq_none (by simp; omega), List.getElem?_eq_none (by simp; omega)]
  rw [e]

theorem textPrintCentered_of_parts (s : NHD_OLED) (g : Stack) (text : List Byte)
    (length row : Byte) (clear move : List Event) (L : List Byte)
    (hL : centeredBuffer s g text length = .ok L) (hlen : L.length = s.DISP_COLUMNS.val)
    (hclear : textClearRow s g row = .ok clear) (hmove : cursorMoveToRow s row = .ok move) :
    textPrintCentered s g text length row = .ok (clear ++ move ++ L.flatMap (sendData s)) := by
  simp only [textPrintCentered, hL, hclear, hmove, bind, Except.bind, pure, Except.pure]
  rw [print_eq s L s.DISP_COLUMNS hlen]

/-- C6: for a row below 4 and a text of length `len <= columns`,
`textPrintCentered` emits the events of `textClearRow(row)`, then those of
`cursorMoveToRow(row)`, then exactly `columns` data frames whose payloads `L`
hold `text[k]` at position `(columns - len) / 2 + k` and a space (0x20) at every
other position; `textClearRow` completes whenever its counter does not start
below zero. -/
theorem textPrintCentered_layout (s : NHD_OLED) (g : Stack) (text : List Byte)
    (length row : Byte) (hrow : row.val < 4) (htext : text.length = length.val)
    (hlen : length.val ≤ s.DISP_COLUMNS.val) :
    ∃ (move : List Event) (L : List Byte),
      cursorMoveToRow s row = .ok move
      ∧ L.length = s.DISP_COLUMNS.val
      ∧ (∀ k (hk : k < text.length),
          L[(s.DISP_COLUMNS.val - length.val) / 2 + k]? = some (text.get ⟨k, hk⟩))
      ∧ (∀ j, j < s.DISP_COLUMNS.val →
          (j < (s.DISP_COLUMNS.val - length.val) / 2
            ∨ (s.DISP_COLUMNS.val - length.val) / 2 + length.val ≤ j) → L[j]? = some 0x20)
      ∧ textPrintCentered s g text length row
          = (textClearRow s g row).map (fun clear => clear ++ move ++ L.flatMap (sendData s))
      ∧ (0 ≤ g.i → ∃ clear, textClearRow s g row = .ok clear) := by
  obtain ⟨base, _, hmove⟩ := cursorMoveToRow_ok s row hrow
  obtain ⟨L, hL, h1, h2, h3⟩ := centeredBuffer_ok s g text length htext hlen
  refine ⟨_, L, hmove, h1, h2, h3, ?_, ?_⟩
  · simp only [textPrintCentered, hL, bind, Except.bind, pure, Except.pure]
    cases hclear : textClearRow s g row with
    | error e => rfl
    | ok clear =>
      simp only [Except.map, hmove]
      rw [print_eq s L s.DISP_COLUMNS h1]
  · intro hi
    rw [textClearRow_eq s g row hi, hmove]
    exact ⟨_, rfl⟩

/-- Witness of `textPrintCentered_layout`: "HI" on row 0 of the 2 x 16 display
clears the row, moves to it and sends 7 spaces, 'H', 'I', 7 spaces. -/
theorem textPrintCentered_layout_witness :
    ((0 : Byte).val < 4 ∧ ([0x48, 0x49] : List Byte).length = (2 : Byte).val
      ∧ (2 : Byte).val ≤ sampleDriver.DISP_COLUMNS.val)
    ∧ (∃ (move : List Event) (L : List Byte),
        cursorMoveToRow sampleDriver 0 = .ok move
        ∧ L.length = sampleDriver.DISP_COLUMNS.val
        ∧ (∀ k (hk : k < ([0x48, 0x49] : List Byte).length),
            L[(sampleDriver.DISP_COLUMNS.val - (2 : Byte).val) / 2 + k]?
              = some (([0x48, 0x49] : List Byte).get ⟨k, hk⟩))
        ∧ (∀ j, j < sampleDriver.DISP_COLUMNS.val →
            (j < (sampleDriver.DISP_COLUMNS.val - (2 : Byte).val) / 2
              ∨ (sampleDriver.DISP_COLUMNS.val - (2 : Byte).val) / 2 + (2 : Byte).val ≤ j) →
            L[j]? = some 0x20)
        ∧ textPrintCentered sampleDriver zeroStack [0x48, 0x49] 2 0
            = (textClearRow sampleDriver zeroStack 0).map
                (fun clear => clear ++ move ++ L.flatMap (sendData sampleDriver))
        ∧ (0 ≤ zeroStack.i → ∃ clear, textClearRow sampleDriver zeroStack 0 = .ok clear))
    ∧ textPrintCentered sampleDriver zeroStack [0x48, 0x49] 2 0
        = .ok ((sendCommand sampleDriver 0x80 ++ [Event.delay 10]
              ++ (List.replicate 16 (0x20 : Byte)).flatMap (sendData sampleDriver))
            ++ (sendCommand sampleDriver 0x80 ++ [Event.delay 10])
            ++ ([0x20, 0x20, 0x20, 0x20, 0x20, 0x20, 0x20, 0x48, 0x49,
                 0x20, 0x20, 0x20, 0x20, 0x20, 0x20, 0x20] : List Byte).flatMap
                (sendData sampleDriver)) :=
  ⟨⟨by decide, by decide, by decide⟩,
    textPrintCentered_layout sampleDriver zeroStack [0x48, 0x49] 2 0 (by decide) (by decide)
      (by decide),
    textPrintCentered_of_parts sampleDriver zeroStack [0x48, 0x49] 2 0 _ _ _ (by decide)
      (by decide) (textClearRow_zero sampleDriver zeroStack 0 rfl) rfl⟩

/-- C7: for a row below 4 and a text of length `len <= columns`,
`textPrintRightJustified` emits the events of `textClearRow(row)`, then those of
`cursorMoveToRow(row)`, then exactly `columns` data frames whose payloads are
`columns - len` spaces (0x20) followed by the text; `textClearRow` completes
whenever its counter does not start below zero. -/
theorem textPrintRightJustified_layout (s : NHD_OLED) (g : Stack) (text : List Byte)
    (length row : Byte) (hrow : row.val < 4) (htext : text.length = length.val)
    (hlen : length.val ≤ s.DISP_COLUMNS.val) :
    ∃ move : List Event,
      cursorMoveToRow s row = .ok move
      ∧ (List.replicate (s.DISP_COLUMNS.val - length.val) (0x20 : Byte) ++ text).length
          = s.DISP_COLUMNS.val
      ∧ textPrintRightJustified s g text length row
          = (textClearRow s g row).map (fun clear => clear ++ move
              ++ (List.replicate (s.DISP_COLUMNS.val - length.val) (0x20 : Byte) ++ text).flatMap
                  (sendData s))
      ∧ (0 ≤ g.i → ∃ clear, textClearRow s g row = .ok clear) := by
  obtain ⟨base, _, hmove⟩ := cursorMoveToRow_ok s row hrow
  have e : (s.DISP_COLUMNS.val : Int) - (length.val : Int)
      = ((s.DISP_COLUMNS.val - length.val : Nat) : Int) := by omega
  obtain ⟨L, hL, h1, h2, h3⟩ := copyLoop text (s.DISP_COLUMNS.val - length.val)
    s.DISP_COLUMNS.val (by omega)
  have hc := clearLoop ((List.range s.DISP_COLUMNS.val).map g.line)
  simp only [List.length_map, List.length_range] at hc
  have hLeq : L = List.replicate (s.DISP_COLUMNS.val - length.val) (0x20 : Byte) ++ text := by
    apply List.ext_getElem?
    intro j
    by_cases hj : j < s.DISP_COLUMNS.val - length.val
    · rw [h3 j (by omega) (Or.inl hj), List.getElem?_append_left (by simpa using hj),
        List.getElem?_replicate, if_pos hj]
    · by_cases hj2 : j < s.DISP_COLUMNS.val
      · obtain ⟨k, hk⟩ : ∃ k, j = (s.DISP_COLUMNS.val - length.val) + k :=
          ⟨j - (s.DISP_COLUMNS.val - length.val), by omega⟩
        have hk2 : k < text.length := by omega
        rw [hk, h2 k hk2, List.getElem?_append_right (by simp)]
        simp [List.getElem?_eq_getElem hk2]
      · rw [List.getElem?_eq_none (by rw [h1]; omega),
          List.getElem?_eq_none (by simp; omega)]
  have hlen2 : (List.replicate (s.DISP_COLUMNS.val - length.val) (0x20 : Byte) ++ text).length
      = s.DISP_COLUMNS.val := by simp; omega
  refine ⟨_, hmove, hlen2, ?_, ?_⟩
  · rw [htext] at hL
    simp only [bind, Except.bind] at hL
    simp only [textPrintRightJustified, hc, bind, Except.bind, pure, Except.pure, e, hL]
    cases hclear : textClearRow s g row with
    | error e => rfl
    | ok clear =>
      simp only [Except.map, hmove]
      rw [print_eq s L s.DISP_COLUMNS h1, hLeq]
  · intro hi
    rw [textClearRow_eq s g row hi, hmove]
    exact ⟨_, rfl⟩

/-- Witness of `textPrintRightJustified_layout`: "HI" on row 1 of the 2 x 16
display. -/
theorem textPrintRightJustified_layout_witness :
    ((1 : Byte).val < 4 ∧ ([0x48, 0x49] : List Byte).length = (2 : Byte).val
      ∧ (2 : Byte).val ≤ sampleDriver.DISP_COLUMNS.val)
    ∧ ∃ move : List Event,
      cursorMoveToRow sampleDriver 1 = .ok move
      ∧ (List.replicate (sampleDriver.DISP_COLUMNS.val - (2 : Byte).val) (0x20 : Byte)
          ++ [0x48, 0x49]).length = sampleDriver.DISP_COLUMNS.val
      ∧ textPrintRightJustified sampleDriver zeroStack [0x48, 0x49] 2 1
          = (textClearRow sampleDriver zeroStack 1).map (fun clear => clear ++ move
              ++ (List.replicate (sampleDriver.DISP_COLUMNS.val - (2 : Byte).val) (0x20 : Byte)
                  ++ [0x48, 0x49]).flatMap (sendData sampleDriver))
      ∧ (0 ≤ zeroStack.i → ∃ clear, textClearRow sampleDriver zeroStack 1 = .ok clear) :=
  ⟨⟨by decide, by decide, by decide⟩,
    textPrintRightJustified_layout sampleDriver zeroStack [0x48, 0x49] 2 1 (by decide)
      (by decide) (by decide)⟩

end NHD_OLED

/-! ## The sweep animation -/

namespace NHD_OLED

theorem times_printChar (s : NHD_OLED) (c : Byte) (n : Nat) (out : List Event) :
    times n (fun o => o ++ sendData s c) out
      = out ++ (List.replicate n c).flatMap (sendData s) := by
  rw [times_append, List.flatMap_replicate]

theorem sweepInStep_eq (s : NHD_OLED) (row l r : Byte) (td : Nat) (move : List Event)
    (hmove : cursorMoveToRow s row = .ok move) (sn : Byte) (out : List Event) :
    sweepInStep s row l r td (sn, out) = .ok (Byte.ofNat (sn.val + 1),
      out ++ (move ++ (List.replicate sn.val (0x20 : Byte) ++ [l]
          ++ List.replicate
              (Byte.ofInt ((s.DISP_COLUMNS.val : Int) - 2 - (sn.val : Int) * 2)).val (0x20 : Byte)
          ++ [r] ++ List.replicate sn.val (0x20 : Byte)).flatMap (sendData s)
        ++ [Event.delay td])) := by
  simp only [sweepInStep, hmove, bind, Except.bind, pure, Except.pure, printChar,
    times_printChar, List.flatMap_append, List.flatMap_cons, List.flatMap_nil, List.append_assoc,
    List.append_nil]

theorem sweepClosing_eq (s : NHD_OLED) (row l r : Byte) (td : Nat) (move : List Event)
    (hmove : cursorMoveToRow s row = .ok move) :
    sweepClosing s row l r td = .ok (Byte.ofNat (s.DISP_COLUMNS.val / 2),
      (List.range (s.DISP_COLUMNS.val / 2)).flatMap (fun i =>
        move ++ (List.replicate i (0x20 : Byte) ++ [l]
            ++ List.replicate (s.DISP_COLUMNS.val - 2 - 2 * i) (0x20 : Byte)
            ++ [r] ++ List.replicate i (0x20 : Byte)).flatMap (sendData s)
          ++ [Event.delay td])) := by
  have hC := s.DISP_COLUMNS.isLt
  obtain ⟨st, hst, hv, ho⟩ := forLoop_inv
    (fun _ st => sweepInStep s row l r td st) (s.DISP_COLUMNS.val / 2)
    (fun k (st : Byte × List Event) => st.1.val = k
      ∧ st.2 = (List.range k).flatMap (fun i =>
        move ++ (List.replicate i (0x20 : Byte) ++ [l]
            ++ List.replicate (s.DISP_COLUMNS.val - 2 - 2 * i) (0x20 : Byte)
            ++ [r] ++ List.replicate i (0x20 : Byte)).flatMap (sendData s)
          ++ [Event.delay td])) 0 (0, []) ⟨rfl, rfl⟩
    (by
      intro k st hk ⟨hv, ho⟩
      obtain ⟨sn, out⟩ := st
      simp only at hv ho
      refine ⟨_, sweepInStep_eq s row l r td move hmove sn out, ?_, ?_⟩
      · simp only [Byte.ofNat, hv]
        omega
      · have e : (Byte.ofInt ((s.DISP_COLUMNS.val : Int) - 2 - (k : Int) * 2)).val
            = s.DISP_COLUMNS.val - 2 - 2 * k := by
          simp only [Byte.ofInt]
          omega
        simp only [e, hv, ho, List.range_succ, List.flatMap_append, List.flatMap_cons,
          List.flatMap_nil, List.append_nil])
  rw [sweepClosing, hst]
  congr 1
  refine Prod.ext (Fin.ext ?_) ho
  simp only [Byte.ofNat, hv]
  omega

theorem sweepOutStep_eq (s : NHD_OLED) (buf : List Byte) (row l r : Byte) (td : Nat)
    (move : List Event) (hmove : cursorMoveToRow s row = .ok move) (sn : Byte)
    (out : List Event)
    (hfit : (Byte.ofNat (sn.val + 1)).val
        + (Byte.ofInt ((s.DISP_COLUMNS.val : Int) - 2 - (sn.val : Int) * 2)).val ≤ buf.length) :
    sweepOutStep s buf row l r td (sn, out) = .ok (Byte.ofInt ((sn.val : Int) - 1),
      out ++ (move ++ (List.replicate sn.val (0x20 : Byte) ++ [r]
          ++ (buf.drop (Byte.ofNat (sn.val + 1)).val).take
              (Byte.ofInt ((s.DISP_COLUMNS.val : Int) - 2 - (sn.val : Int) * 2)).val
          ++ [l] ++ List.replicate sn.val (0x20 : Byte)).flatMap (sendData s)
        ++ [Event.delay td])) := by
  generalize hstart : (Byte.ofNat (sn.val + 1)).val = start at hfit
  generalize hinner :
    (Byte.ofInt ((s.DISP_COLUMNS.val : Int) - 2 - (sn.val : Int) * 2)).val = inner at hfit
  obtain ⟨o, ho, hinv⟩ := forLoop_inv
    (fun ii o => do
      let c ← index buf ((start : Int) + ii)
      pure (o ++ sendData s c)) inner
    (fun k o => o = (out ++ move ++ (List.replicate sn.val (0x20 : Byte)).flatMap (sendData s)
        ++ sendData s r) ++ ((buf.drop start).take k).flatMap (sendData s)) 0
    (out ++ move ++ (List.replicate sn.val (0x20 : Byte)).flatMap (sendData s) ++ sendData s r)
    (by simp)
    (by
      intro k o hk hinv
      have hk2 : start + k < buf.length := by omega
      have e : (start : Int) + (0 + (k : Int)) = ((start + k : Nat) : Int) := by
        push_cast; omega
      refine ⟨o ++ sendData s (buf.get ⟨start + k, hk2⟩), ?_, ?_⟩
      · simp only [e, index_nat buf (start + k) hk2, bind, Except.bind, pure, Except.pure]
      · show _ = _
        rw [hinv, List.take_succ, List.getElem?_drop, List.getElem?_eq_getElem hk2]
        simp [List.flatMap_append])
  simp only [bind, Except.bind, pure, Except.pure] at ho
  simp only [sweepOutStep, hmove, bind, Except.bind, pure, Except.pure, printChar,
    times_printChar, hstart, hinner, List.append_assoc] at ho ⊢
  simp only [ho, hinv, List.flatMap_append, List.flatMap_cons,
    List.flatMap_nil, List.append_assoc, List.append_nil]

theorem sweepOpening_ok (s : NHD_OLED) (buf : List Byte) (row l r : Byte) (td : Nat)
    (move : List Event) (hmove : cursorMoveToRow s row = .ok move)
    (hbuf : buf.length = s.DISP_COLUMNS.val) :
    ∃ st, sweepOpening s buf row l r td
      (Byte.ofInt (((Byte.ofNat (s.DISP_COLUMNS.val / 2)).val : Int) - 1)) = .ok st := by
  have hC := s.DISP_COLUMNS.isLt
  obtain ⟨st, hst, _⟩ := forLoop_inv
    (fun _ st => sweepOutStep s buf row l r td st)
    (s.DISP_COLUMNS.val - s.DISP_COLUMNS.val / 2)
    (fun k (st : Byte × List Event) =>
      st.1 = Byte.ofInt ((s.DISP_COLUMNS.val / 2 : Nat) - 1 - (k : Int)))
    (s.DISP_COLUMNS.val / 2 : Nat)
    (Byte.ofInt (((Byte.ofNat (s.DISP_COLUMNS.val / 2)).val : Int) - 1), [])
    (by
      apply Fin.ext
      simp only [Byte.ofInt, Byte.ofNat]
      omega)
    (by
      intro k st hk hinv
      obtain ⟨sn, out⟩ := st
      simp only at hinv
      have hsn : sn.val = (((s.DISP_COLUMNS.val / 2 : Nat) - 1 - (k : Int)) % 256).toNat := by
        rw [hinv]; rfl
      refine ⟨_, sweepOutStep_eq s buf row l r td move hmove sn out ?_, ?_⟩
      · simp only [Byte.ofInt, Byte.ofNat, hbuf]
        omega
      · apply Fin.ext
        simp only [Byte.ofInt]
        omega)
  exact ⟨st, hst⟩

theorem textSweep_eq (s : NHD_OLED) (g : Stack) (text : List Byte)
    (length row l r : Byte) (td : Nat) (move : List Event) (L : List Byte)
    (hmove : cursorMoveToRow s row = .ok move)
    (hL : centeredBuffer s g text length = .ok L) (hlen : L.length = s.DISP_COLUMNS.val) :
    ∃ opening : List Event, textSweep s g text length row l r td
      = (textClearRow s g row).map (fun clear => clear
          ++ (List.range (s.DISP_COLUMNS.val / 2)).flatMap (fun i =>
              move ++ (List.replicate i (0x20 : Byte) ++ [l]
                  ++ List.replicate (s.DISP_COLUMNS.val - 2 - 2 * i) (0x20 : Byte)
                  ++ [r] ++ List.replicate i (0x20 : Byte)).flatMap (sendData s)
                ++ [Event.delay td])
          ++ opening ++ move ++ L.flatMap (sendData s)) := by
  obtain ⟨⟨sn, opening⟩, hopen⟩ := sweepOpening_ok s L row l r td move hmove hlen
  refine ⟨opening, ?_⟩
  simp only [textSweep, hL, bind, Except.bind, pure, Except.pure]
  cases hclear : textClearRow s g row with
  | error e => rfl
  | ok clear =>
    simp only [Except.map, sweepClosing_eq s row l r td move hmove, hopen, hmove]
    rw [print_eq s L s.DISP_COLUMNS hlen]


/-- C8 (the code departs from the claim): on the 2 x 16 display, when the
uninitialised counter `int i` of the fill loop starts at 16, the loop body never
runs and `textClearRow(0)` sends, after the row-address command, 16 data frames
with the stale contents of `temp` (here 0x58), not 16 spaces. -/
theorem textClearRow_uninitialised_counter :
    textClearRow sampleDriver staleStack 0
        = .ok (sendCommand sampleDriver 0x80 ++ [Event.delay 10]
            ++ (List.replicate 16 (0x58 : Byte)).flatMap (sendData sampleDriver))
    ∧ cursorMoveToRow sampleDriver 0 = .ok (sendCommand sampleDriver 0x80 ++ [Event.delay 10])
    ∧ textClearRow sampleDriver staleStack 0
        ≠ .ok (sendCommand sampleDriver 0x80 ++ [Event.delay 10]
            ++ (List.replicate 16 (0x20 : Byte)).flatMap (sendData sampleDriver)) := by
  have h : textClearRow sampleDriver staleStack 0
      = .ok (sendCommand sampleDriver 0x80 ++ [Event.delay 10]
          ++ (List.replicate 16 (0x58 : Byte)).flatMap (sendData sampleDriver)) := by
    rw [textClearRow_eq sampleDriver staleStack 0 (by decide)]
    have e : (List.range sampleDriver.DISP_COLUMNS.val).map
        (fun (j : Nat) => if staleStack.i ≤ (j : Int) then (0x20 : Byte) else staleStack.temp j)
        = List.replicate 16 (0x58 : Byte) := by decide
    rw [e]
    rfl
  refine ⟨h, rfl, ?_⟩
  rw [h]
  intro hne
  have h2 := List.append_cancel_left (Except.ok.inj hne)
  have h3 := congrArg (fun t => t[35]?) h2
  revert h3
  set_option maxRecDepth 20000 in decide

/-- C9: for a row below 4 and a text of length `len <= columns`, the events of
`textSweep` end with those of `cursorMoveToRow(row)` followed by exactly
`columns` data frames, whose payloads `L` are the payloads of the final `columns`
data frames of `textPrintCentered` with the same text, length and row;
`textClearRow` completes whenever its counter does not start below zero. -/
theorem textSweep_final_frame (s : NHD_OLED) (g : Stack) (text : List Byte)
    (length row leftSweepChar rightSweepChar : Byte) (timeDelay : Nat)
    (hrow : row.val < 4) (htext : text.length = length.val)
    (hlen : length.val ≤ s.DISP_COLUMNS.val) :
    ∃ (move : List Event) (L : List Byte),
      cursorMoveToRow s row = .ok move
      ∧ L.length = s.DISP_COLUMNS.val
      ∧ (∃ animation : List Event,
          textSweep s g text length row leftSweepChar rightSweepChar timeDelay
            = (textClearRow s g row).map (fun clear =>
                clear ++ animation ++ move ++ L.flatMap (sendData s)))
      ∧ textPrintCentered s g text length row
          = (textClearRow s g row).map (fun clear => clear ++ move ++ L.flatMap (sendData s))
      ∧ (0 ≤ g.i → ∃ clear, textClearRow s g row = .ok clear) := by
  obtain ⟨base, _, hbase⟩ := cursorMoveToRow_ok s row hrow
  obtain ⟨move, hmove⟩ : ∃ move, cursorMoveToRow s row = .ok move := ⟨_, hbase⟩
  obtain ⟨L, hL, h1, _, _⟩ := centeredBuffer_ok s g text length htext hlen
  obtain ⟨opening, hsweep⟩ :=
    textSweep_eq s g text length row leftSweepChar rightSweepChar timeDelay move L hmove hL h1
  refine ⟨move, L, hmove, h1,
    ⟨(List.range (s.DISP_COLUMNS.val / 2)).flatMap (fun i =>
        move ++ (List.replicate i (0x20 : Byte) ++ [leftSweepChar]
            ++ List.replicate (s.DISP_COLUMNS.val - 2 - 2 * i) (0x20 : Byte)
            ++ [rightSweepChar] ++ List.replicate i (0x20 : Byte)).flatMap (sendData s)
          ++ [Event.delay timeDelay]) ++ opening, ?_⟩, ?_, ?_⟩
  · rw [hsweep]
    congr 1
    funext clear
    simp only [List.append_assoc]
  · cases hclear : textClearRow s g row with
    | error e =>
      simp only [textPrintCentered, hL, hclear, bind, Except.bind, Except.map]
    | ok clear =>
      rw [textPrintCentered_of_parts s g text length row clear move L hL h1 hclear hmove]
      rfl
  · intro hi
    rw [textClearRow_eq s g row hi, hmove]
    exact ⟨_, rfl⟩

/-- Witness of `textSweep_final_frame`: "HI" swept on row 0 of the 2 x 16 display
with markers '>' and '<' and 50 ms per step. -/
theorem textSweep_final_frame_witness :
    ((0 : Byte).val < 4 ∧ ([0x48, 0x49] : List Byte).length = (2 : Byte).val
      ∧ (2 : Byte).val ≤ sampleDriver.DISP_COLUMNS.val)
    ∧ ∃ (move : List Event) (L : List Byte),
      cursorMoveToRow sampleDriver 0 = .ok move
      ∧ L.length = sampleDriver.DISP_COLUMNS.val
      ∧ (∃ animation : List Event,
          textSweep sampleDriver zeroStack [0x48, 0x49] 2 0 0x3E 0x3C 50
            = (textClearRow sampleDriver zeroStack 0).map (fun clear =>
                clear ++ animation ++ move ++ L.flatMap (sendData sampleDriver)))
      ∧ textPrintCentered sampleDriver zeroStack [0x48, 0x49] 2 0
          = (textClearRow sampleDriver zeroStack 0).map
              (fun clear => clear ++ move ++ L.flatMap (sendData sampleDriver))
      ∧ (0 ≤ zeroStack.i → ∃ clear, textClearRow sampleDriver zeroStack 0 = .ok clear) :=
  ⟨⟨by decide, by decide, by decide⟩,
    textSweep_final_frame sampleDriver zeroStack [0x48, 0x49] 2 0 0x3E 0x3C 50 (by decide)
      (by decide) (by decide)⟩

/-- C10: for every column count (in particular every `columns >= 2`) and a row
below 4, the first loop of `textSweep` emits exactly one frame for each step
`i = 0, 1, ..., columns/2 - 1`, in that order; frame `i` is the events of
`cursorMoveToRow(row)`, then the data frames of `i` spaces, the left marker,
`columns - 2 - 2 i` spaces, the right marker and `i` spaces (`columns` data
bytes), then one delay of `timeDelay`; in a run of `textSweep` on a text of
length `len <= columns` these frames follow the events of `textClearRow`. -/
theorem textSweep_closing_phase (s : NHD_OLED) (row leftSweepChar rightSweepChar : Byte)
    (timeDelay : Nat) (hrow : row.val < 4) :
    ∃ move : List Event,
      cursorMoveToRow s row = .ok move
      ∧ (∃ stepnum : Byte, sweepClosing s row leftSweepChar rightSweepChar timeDelay
          = .ok (stepnum, (List.range (s.DISP_COLUMNS.val / 2)).flatMap (fun i =>
              move
              ++ (closingBytes s.DISP_COLUMNS.val leftSweepChar rightSweepChar i).flatMap
                  (sendData s)
              ++ [Event.delay timeDelay])))
      ∧ (∀ i, i < s.DISP_COLUMNS.val / 2 →
          (closingBytes s.DISP_COLUMNS.val leftSweepChar rightSweepChar i).length
            = s.DISP_COLUMNS.val)
      ∧ (∀ (g : Stack) (text : List Byte) (length : Byte),
          text.length = length.val → length.val ≤ s.DISP_COLUMNS.val →
          ∃ rest : List Event,
            textSweep s g text length row leftSweepChar rightSweepChar timeDelay
              = (textClearRow s g row).map (fun clear => clear
                  ++ (List.range (s.DISP_COLUMNS.val / 2)).flatMap (fun i =>
                      move
                      ++ (closingBytes s.DISP_COLUMNS.val leftSweepChar rightSweepChar i).flatMap
                          (sendData s)
                      ++ [Event.delay timeDelay])
                  ++ rest)) := by
  obtain ⟨base, _, hbase⟩ := cursorMoveToRow_ok s row hrow
  obtain ⟨move, hmove⟩ : ∃ move, cursorMoveToRow s row = .ok move := ⟨_, hbase⟩
  refine ⟨move, hmove,
    ⟨_, sweepClosing_eq s row leftSweepChar rightSweepChar timeDelay move hmove⟩, ?_, ?_⟩
  · intro i hi
    simp only [closingBytes, List.length_append, List.length_replicate, List.length_cons,
      List.length_nil]
    omega
  · intro g text length htext hlen
    obtain ⟨L, hL, h1, _, _⟩ := centeredBuffer_ok s g text length htext hlen
    obtain ⟨opening, hsweep⟩ :=
      textSweep_eq s g text length row leftSweepChar rightSweepChar timeDelay move L hmove hL h1
    refine ⟨opening ++ move ++ L.flatMap (sendData s), ?_⟩
    rw [hsweep]
    congr 1
    funext clear
    simp only [closingBytes, List.append_assoc]

/-- Witness of `textSweep_closing_phase`: markers '>' and '<' on row 0 of the
2 x 16 display, 50 ms per step, text "HI". -/
theorem textSweep_closing_phase_witness :
    ((0 : Byte).val < 4 ∧ ([0x48, 0x49] : List Byte).length = (2 : Byte).val
      ∧ (2 : Byte).val ≤ sampleDriver.DISP_COLUMNS.val ∧ 3 < sampleDriver.DISP_COLUMNS.val / 2)
    ∧ ∃ move : List Event,
      cursorMoveToRow sampleDriver 0 = .ok move
      ∧ (∃ stepnum : Byte, sweepClosing sampleDriver 0 0x3E 0x3C 50
          = .ok (stepnum, (List.range (sampleDriver.DISP_COLUMNS.val / 2)).flatMap (fun i =>
              move
              ++ (closingBytes sampleDriver.DISP_COLUMNS.val 0x3E 0x3C i).flatMap
                  (sendData sampleDriver)
              ++ [Event.delay 50])))
      ∧ (closingBytes sampleDriver.DISP_COLUMNS.val 0x3E 0x3C 3).length
          = sampleDriver.DISP_COLUMNS.val
      ∧ ∃ rest : List Event,
          textSweep sampleDriver zeroStack [0x48, 0x49] 2 0 0x3E 0x3C 50
            = (textClearRow sampleDriver zeroStack 0).map (fun clear => clear
                ++ (List.range (sampleDriver.DISP_COLUMNS.val / 2)).flatMap (fun i =>
                    move
                    ++ (closingBytes sampleDriver.DISP_COLUMNS.val 0x3E 0x3C i).flatMap
                        (sendData sampleDriver)
                    ++ [Event.delay 50])
                ++ rest) := by
  refine ⟨⟨by decide, by decide, by decide, by decide⟩, ?_⟩
  obtain ⟨move, h1, h2, h3, h4⟩ := textSweep_closing_phase sampleDriver 0 0x3E 0x3C 50 (by decide)
  exact ⟨move, h1, h2, h3 3 (by decide), h4 zeroStack [0x48, 0x49] 2 (by decide) (by decide)⟩

end NHD_OLED

/-! ## The initialisation sequence -/

namespace NHD_OLED

theorem frame_payload_bits (s : NHD_OLED) (tag a b : Byte) (h : frame s tag a = frame s tag b) :
    ∀ k, k < 8 → bitOf a k = bitOf b k := by
  have e0 : some (Event.digitalWrite s.SDIN (bitOf a 0))
      = some (Event.digitalWrite s.SDIN (bitOf b 0)) := congrArg (fun l => l[26]?) h
  have e1 : some (Event.digitalWrite s.SDIN (bitOf a 1))
      = some (Event.digitalWrite s.SDIN (bitOf b 1)) := congrArg (fun l => l[29]?) h
  have e2 : some (Event.digitalWrite s.SDIN (bitOf a 2))
      = some (Event.digitalWrite s.SDIN (bitOf b 2)) := congrArg (fun l => l[32]?) h
  have e3 : some (Event.digitalWrite s.SDIN (bitOf a 3))
      = some (Event.digitalWrite s.SDIN (bitOf b 3)) := congrArg (fun l => l[35]?) h
  have e4 : some (Event.digitalWrite s.SDIN (bitOf a 4))
      = some (Event.digitalWrite s.SDIN (bitOf b 4)) := congrArg (fun l => l[50]?) h
  have e5 : some (Event.digitalWrite s.SDIN (bitOf a 5))
      = some (Event.digitalWrite s.SDIN (bitOf b 5)) := congrArg (fun l => l[53]?) h
  have e6 : some (Event.digitalWrite s.SDIN (bitOf a 6))
      = some (Event.digitalWrite s.SDIN (bitOf b 6)) := congrArg (fun l => l[56]?) h
  have e7 : some (Event.digitalWrite s.SDIN (bitOf a 7))
      = some (Event.digitalWrite s.SDIN (bitOf b 7)) := congrArg (fun l => l[59]?) h
  intro k hk
  interval_cases k
  · exact (Event.digitalWrite.inj (Option.some.inj e0)).2
  · exact (Event.digitalWrite.inj (Option.some.inj e1)).2
  · exact (Event.digitalWrite.inj (Option.some.inj e2)).2
  · exact (Event.digitalWrite.inj (Option.some.inj e3)).2
  · exact (Event.digitalWrite.inj (Option.some.inj e4)).2
  · exact (Event.digitalWrite.inj (Option.some.inj e5)).2
  · exact (Event.digitalWrite.inj (Option.some.inj e6)).2
  · exact (Event.digitalWrite.inj (Option.some.inj e7)).2

theorem byte_of_bits (a b : Byte) (h : ∀ k, k < 8 → bitOf a k = bitOf b k) : a = b := by
  have ha := a.isLt
  have hb := b.isLt
  have e0 := congrArg Fin.val (h 0 (by decide))
  have e1 := congrArg Fin.val (h 1 (by decide))
  have e2 := congrArg Fin.val (h 2 (by decide))
  have e3 := congrArg Fin.val (h 3 (by decide))
  have e4 := congrArg Fin.val (h 4 (by decide))
  have e5 := congrArg Fin.val (h 5 (by decide))
  have e6 := congrArg Fin.val (h 6 (by decide))
  have e7 := congrArg Fin.val (h 7 (by decide))
  simp only [bitOf, Byte.ofNat] at e0 e1 e2 e3 e4 e5 e6 e7
  norm_num at e0 e1 e2 e3 e4 e5 e6 e7
  apply Fin.ext
  omega

theorem frame_injective (s : NHD_OLED) (tag a b : Byte) (h : frame s tag a = frame s tag b) :
    a = b :=
  byte_of_bits a b (frame_payload_bits s tag a b h)

theorem sendCommand_injective (s : NHD_OLED) (a b : Byte) (h : sendCommand s a = sendCommand s b) :
    a = b := by
  rw [sendCommand, sendCommand, SPIBitBang_eq_frame, SPIBitBang_eq_frame] at h
  exact frame_injective s _ a b h

theorem sendCommand_length (s : NHD_OLED) (a : Byte) : (sendCommand s a).length = 73 := by
  rw [sendCommand, SPIBitBang_eq_frame, frame_length]

theorem sendData_length (s : NHD_OLED) (a : Byte) : (sendData s a).length = 73 := by
  rw [sendData, SPIBitBang_eq_frame, frame_length]

theorem setupInit_eq (s : NHD_OLED) :
    setupInit s = (initSequence (rowGroupCommand s.DISP_ROWS)
      (rowCountCommand s.DISP_ROWS)).flatMap (emitFrame s) ++ [Event.delay 100] := by
  by_cases h3 : s.DISP_ROWS.val < 3
  · by_cases h1 : s.DISP_ROWS.val = 1
    · simp [setupInit, initSequence, emitFrame, rowGroupCommand, rowCountCommand, h1]
    · have h5 : ¬ s.DISP_ROWS.val = 3 := by omega
      simp [setupInit, initSequence, emitFrame, rowGroupCommand, rowCountCommand, h1, h3, h5]
  · by_cases h1 : s.DISP_ROWS.val = 3
    · simp [setupInit, initSequence, emitFrame, rowGroupCommand, rowCountCommand, h1]
    · have h5 : ¬ s.DISP_ROWS.val = 1 := by omega
      simp [setupInit, initSequence, emitFrame, rowGroupCommand, rowCountCommand, h1, h3, h5]

/-- C12: for every geometry `setupInit` emits the 34 frames
C2A C71 D5C, C28 C08, C2A C79 CD5 C70 C78, C28 X Y, C2A C72 D00, C06 C20,
C79 CDA C10 CDC C00 C81 C7F CD9 CF1 CDB C40 C78, C28 C01 C80 C0C in this order,
followed by a delay of 100 ms; X and Y are functions of the row count, the
column count has no influence, and the data frames are exactly 0x5C and 0x00. -/
theorem setupInit_sequence (s : NHD_OLED) :
    setupInit s = (initSequence (rowGroupCommand s.DISP_ROWS)
        (rowCountCommand s.DISP_ROWS)).flatMap (emitFrame s) ++ [Event.delay 100]
    ∧ (∀ X Y : Byte, (initSequence X Y).length = 34)
    ∧ (∀ X Y : Byte, ∀ f ∈ initSequence X Y,
        emitFrame s f = frame s (if f.1 then 0xF8 else 0xFA) f.2)
    ∧ (∀ X Y : Byte,
        (initSequence X Y).filter (fun f => !f.1) = [(false, 0x5C), (false, 0x00)])
    ∧ (∀ rows columns : Byte,
        setupInit { s with DISP_ROWS := rows, DISP_COLUMNS := columns }
          = (initSequence (rowGroupCommand rows) (rowCountCommand rows)).flatMap (emitFrame s)
            ++ [Event.delay 100]) := by
  refine ⟨setupInit_eq s, fun X Y => rfl, ?_, fun X Y => rfl, ?_⟩
  · intro X Y f _
    obtain ⟨c, b⟩ := f
    cases c
    · simp only [emitFrame, sendData, SPIBitBang_eq_frame]
      rfl
    · simp only [emitFrame, sendCommand, SPIBitBang_eq_frame]
      rfl
  · intro rows columns
    rw [setupInit_eq]
    rfl

theorem rowConfig_table (r : Byte) (h : 1 ≤ r.val ∧ r.val ≤ 4) :
    ([(0x08, 0x20), (0x08, 0x28), (0x09, 0x20), (0x09, 0x28)] : List (Byte × Byte))[r.val - 1]?
      = some (rowGroupCommand r, rowCountCommand r) := by
  have hv : r.val = 1 ∨ r.val = 2 ∨ r.val = 3 ∨ r.val = 4 := by omega
  rcases hv with h1 | h1 | h1 | h1 <;> simp [rowGroupCommand, rowCountCommand, h1]

theorem rows_of_rowConfig (r : Byte) (h : 1 ≤ r.val ∧ r.val ≤ 4) :
    r.val = (if rowGroupCommand r = 0x08 then 0 else 2)
      + (if rowCountCommand r = 0x20 then 1 else 2) := by
  have e1 : ¬ ((9 : Byte) = 8) := by decide
  have e2 : ¬ ((0x28 : Byte) = 0x20) := by decide
  have hv : r.val = 1 ∨ r.val = 2 ∨ r.val = 3 ∨ r.val = 4 := by omega
  rcases hv with h1 | h1 | h1 | h1 <;> simp [rowGroupCommand, rowCountCommand, h1, e1, e2]

theorem initSequence_split (s : NHD_OLED) (X Y : Byte) :
    (initSequence X Y).flatMap (emitFrame s) ++ [Event.delay 100]
      = ((initSequence 0 0).take 11).flatMap (emitFrame s)
        ++ (sendCommand s X ++ (sendCommand s Y
          ++ (((initSequence 0 0).drop 13).flatMap (emitFrame s) ++ [Event.delay 100]))) := by
  simp only [initSequence, List.take, List.drop, List.flatMap_cons, List.flatMap_nil,
    List.append_assoc, List.append_nil, List.nil_append, emitFrame, if_true]

theorem setupInit_rows_injective (s : NHD_OLED) (r1 r2 : Byte)
    (h : setupInit { s with DISP_ROWS := r1 } = setupInit { s with DISP_ROWS := r2 }) :
    rowGroupCommand r1 = rowGroupCommand r2 ∧ rowCountCommand r1 = rowCountCommand r2 := by
  rw [setupInit_eq, setupInit_eq] at h
  have h1 : (initSequence (rowGroupCommand r1) (rowCountCommand r1)).flatMap (emitFrame s)
      ++ [Event.delay 100]
      = (initSequence (rowGroupCommand r2) (rowCountCommand r2)).flatMap (emitFrame s)
      ++ [Event.delay 100] := h
  rw [initSequence_split, initSequence_split] at h1
  have h2 := List.append_cancel_left h1
  obtain ⟨hX, h3⟩ := List.append_inj h2 (by rw [sendCommand_length, sendCommand_length])
  obtain ⟨hY, _⟩ := List.append_inj h3 (by rw [sendCommand_length, sendCommand_length])
  exact ⟨sendCommand_injective s _ _ hX, sendCommand_injective s _ _ hY⟩

theorem setupInit_delay_last (s : NHD_OLED) :
    ∃ sends : List Event, setupInit s = sends ++ [Event.delay 100]
      ∧ (∀ e ∈ sends, ∃ pin val, e = Event.digitalWrite pin val)
      ∧ (∀ (pre post : List Event) (ms : Nat),
          setupInit s = pre ++ Event.delay ms :: post → post = [] ∧ ms = 100 ∧ pre = sends) := by
  have hw : ∀ e ∈ (initSequence (rowGroupCommand s.DISP_ROWS)
      (rowCountCommand s.DISP_ROWS)).flatMap (emitFrame s),
      ∃ pin val, e = Event.digitalWrite pin val := by
    intro e he
    obtain ⟨f, _, hf⟩ := List.mem_flatMap.mp he
    obtain ⟨c, b⟩ := f
    cases c
    · simp only [emitFrame, sendData, SPIBitBang_eq_frame] at hf
      exact frame_only_writes _ _ _ e hf
    · simp only [emitFrame, sendCommand, SPIBitBang_eq_frame] at hf
      exact frame_only_writes _ _ _ e hf
  refine ⟨_, setupInit_eq s, hw, ?_⟩
  intro pre post ms h
  rw [setupInit_eq] at h
  rcases List.append_eq_append_iff.mp h with ⟨a, ha1, ha2⟩ | ⟨c, hc1, hc2⟩
  · cases a with
    | nil =>
      simp only [List.nil_append, List.cons.injEq] at ha2
      simp only [List.append_nil] at ha1
      obtain ⟨hd, hp⟩ := ha2
      exact ⟨hp.symm, by cases hd; rfl, ha1⟩
    | cons x a =>
      simp only [List.cons_append, List.cons.injEq] at ha2
      obtain ⟨_, ha3⟩ := ha2
      have ha4 := congrArg List.length ha3
      simp only [List.length_nil, List.length_append, List.length_cons] at ha4
      omega
  · cases c with
    | nil =>
      simp only [List.nil_append, List.cons.injEq] at hc2
      simp only [List.append_nil] at hc1
      obtain ⟨hd, hp⟩ := hc2
      exact ⟨hp, by cases hd; rfl, hc1.symm⟩
    | cons x c =>
      simp only [List.cons_append, List.cons.injEq] at hc2
      obtain ⟨hx, _⟩ := hc2
      obtain ⟨pin, val, hpv⟩ := hw x (by rw [hc1]; simp)
      rw [← hx] at hpv
      cases hpv

/-- C13, as stated, fails: on the 2-row display the third command 0x28 of the
initialisation sequence is the row-count command itself, and the two frames
directly after it are the commands 0x2A and 0x72, not the row configuration
(0x08, 0x28); on a 1-row display the third command 0x28 is followed by the
commands 0x01 and 0x80. -/
theorem setupInit_third_0x28 :
    setupInit sampleDriver
        = (initSequence 0x08 0x28).flatMap (emitFrame sampleDriver) ++ [Event.delay 100]
    ∧ (afterOccurrence (true, (0x28 : Byte)) 3 (initSequence 0x08 0x28)).take 2
        = [(true, 0x2A), (true, 0x72)]
    ∧ (afterOccurrence (true, (0x28 : Byte)) 3 (initSequence 0x08 0x28)).take 2
        ≠ [(true, 0x08), (true, 0x28)]
    ∧ setupInit { sampleDriver with DISP_ROWS := 1 }
        = (initSequence 0x08 0x20).flatMap (emitFrame sampleDriver) ++ [Event.delay 100]
    ∧ (afterOccurrence (true, (0x28 : Byte)) 3 (initSequence 0x08 0x20)).take 2
        = [(true, 0x01), (true, 0x80)] :=
  ⟨setupInit_eq sampleDriver, by decide, by decide,
    setupInit_eq { sampleDriver with DISP_ROWS := 1 }, by decide⟩

/-- C13, amended: in `setupInit` the two commands directly after the second
command 0x28 (the one that opens the row-count phase) are the row configuration,
(0x08, 0x20) for 1 row, (0x08, 0x28) for 2 rows, (0x09, 0x20) for 3 rows and
(0x09, 0x28) for 4 rows; the first command is 0x08 exactly for the group of 1 or
2 rows, and two different row counts between 1 and 4 give different
initialisation sequences. -/
theorem setupInit_row_configuration (s : NHD_OLED) (r1 r2 : Byte)
    (h1 : 1 ≤ r1.val ∧ r1.val ≤ 4) (h2 : 1 ≤ r2.val ∧ r2.val ≤ 4) (hne : r1 ≠ r2) :
    setupInit { s with DISP_ROWS := r1 }
        = (initSequence (rowGroupCommand r1) (rowCountCommand r1)).flatMap (emitFrame s)
          ++ [Event.delay 100]
    ∧ (afterOccurrence (true, (0x28 : Byte)) 2
          (initSequence (rowGroupCommand r1) (rowCountCommand r1))).take 2
        = [(true, rowGroupCommand r1), (true, rowCountCommand r1)]
    ∧ ([(0x08, 0x20), (0x08, 0x28), (0x09, 0x20), (0x09, 0x28)] : List (Byte × Byte))[r1.val - 1]?
        = some (rowGroupCommand r1, rowCountCommand r1)
    ∧ (rowGroupCommand r1 = 0x08 ↔ r1.val ≤ 2)
    ∧ setupInit { s with DISP_ROWS := r1 } ≠ setupInit { s with DISP_ROWS := r2 } := by
  refine ⟨setupInit_eq _, rfl, rowConfig_table r1 h1, ?_, ?_⟩
  · have e1 : ¬ ((9 : Byte) = 8) := by decide
    by_cases h3 : r1.val < 3
    · simp only [rowGroupCommand, h3, if_true, true_iff]
      omega
    · simp only [rowGroupCommand, h3, if_false, e1, false_iff]
      omega
  · intro h
    obtain ⟨hX, hY⟩ := setupInit_rows_injective s r1 r2 h
    have e1 := rows_of_rowConfig r1 h1
    have e2 := rows_of_rowConfig r2 h2
    rw [hX, hY] at e1
    exact hne (Fin.ext (e1.trans e2.symm))

/-- Witness of `setupInit_row_configuration`: 1 row against 2 rows on the
default pins. -/
theorem setupInit_row_configuration_witness :
    ((1 ≤ (1 : Byte).val ∧ (1 : Byte).val ≤ 4) ∧ (1 ≤ (2 : Byte).val ∧ (2 : Byte).val ≤ 4)
      ∧ (1 : Byte) ≠ 2)
    ∧ (rowGroupCommand 1, rowCountCommand 1) = (0x08, 0x20)
    ∧ setupInit { sampleDriver with DISP_ROWS := 1 }
        ≠ setupInit { sampleDriver with DISP_ROWS := 2 } :=
  ⟨⟨by decide, by decide, by decide⟩, by decide,
    (setupInit_row_configuration sampleDriver 1 2 (by decide) (by decide) (by decide)).2.2.2.2⟩

/-- C14, as stated, fails: in the events of `setupInit` on the default display
no delay has a pin write both before and after it. -/
theorem setupInit_no_interleaved_delay :
    ¬ ∃ (pre post : List Event) (ms : Nat),
      setupInit sampleDriver = pre ++ Event.delay ms :: post
      ∧ (∃ pin val, Event.digitalWrite pin val ∈ pre)
      ∧ (∃ pin val, Event.digitalWrite pin val ∈ post) := by
  rintro ⟨pre, post, ms, h, _, ⟨pin, val, hpost⟩⟩
  obtain ⟨sends, _, _, hlast⟩ := setupInit_delay_last sampleDriver
  rw [(hlast pre post ms h).1] at hpost
  cases hpost

/-- C14, amended: for every geometry the events of `setupInit` are pin writes
followed by one delay of 100 ms, the settle delay after the final command; it is
the only delay event and nothing follows it. -/
theorem setupInit_single_delay (s : NHD_OLED) :
    ∃ sends : List Event, setupInit s = sends ++ [Event.delay 100]
      ∧ (∀ e ∈ sends, ∃ pin val, e = Event.digitalWrite pin val)
      ∧ (setupInit s).filter isDelay = [Event.delay 100]
      ∧ (∀ (pre post : List Event) (ms : Nat),
          setupInit s = pre ++ Event.delay ms :: post → post = [] ∧ ms = 100 ∧ pre = sends) := by
  obtain ⟨sends, h1, h2, h3⟩ := setupInit_delay_last s
  refine ⟨sends, h1, h2, ?_, h3⟩
  rw [h1, List.filter_append]
  have e : sends.filter isDelay = [] := by
    apply List.filter_eq_nil_iff.mpr
    intro e he
    obtain ⟨pin, val, hpv⟩ := h2 e he
    rw [hpv]
    simp [isDelay]
  rw [e]
  rfl

/-- Witness of `setupInit_single_delay`: the events of the default display split
at the settle delay. -/
theorem setupInit_single_delay_witness :
    setupInit sampleDriver
        = (initSequence 0x08 0x28).flatMap (emitFrame sampleDriver) ++ Event.delay 100 :: []
    ∧ (setupInit sampleDriver).filter isDelay = [Event.delay 100]
    ∧ ([] : List Event) = [] ∧ 100 = 100 := by
  obtain ⟨sends, _, _, h3, h4⟩ := setupInit_single_delay sampleDriver
  have h5 := h4 ((initSequence 0x08 0x28).flatMap (emitFrame sampleDriver)) [] 100
    (setupInit_eq sampleDriver)
  exact ⟨setupInit_eq sampleDriver, h3, h5.1, h5.2.1⟩

/-- C15: `begin` sets the three pins to output mode, writes the clock line
HIGH and the data line HIGH, waits 30 ms, and then emits exactly the events of
`setupInit` for the object that holds the three pin identifiers and the
geometry given; that object is the state after the call. -/
theorem begin_trace (s : NHD_OLED) (clockPin dataPin selectPin rows columns : Byte) :
    (begin s clockPin dataPin selectPin rows columns).1
        = { SCLK := clockPin, SDIN := dataPin, C_S := selectPin,
            DISP_ROWS := rows, DISP_COLUMNS := columns }
    ∧ (begin s clockPin dataPin selectPin rows columns).2
        = [Event.pinMode clockPin OUTPUT, Event.pinMode dataPin OUTPUT,
           Event.pinMode selectPin OUTPUT, Event.digitalWrite clockPin HIGH,
           Event.digitalWrite dataPin HIGH, Event.delay 30]
          ++ setupInit { SCLK := clockPin, SDIN := dataPin, C_S := selectPin,
                         DISP_ROWS := rows, DISP_COLUMNS := columns } :=
  ⟨rfl, rfl⟩

/-- C16: on a display with 1 to 4 rows and at least one column, for a row `r`
below the row count `cursorMoveToRow(r)` emits exactly one command frame, with
byte `base[r]` for `base = [0x80, 0xA0, 0xC0, 0xE0]`, followed by a delay of
10 ms; `cursorPos(r, 0)` emits the same command frame. -/
theorem cursorMoveToRow_command (s : NHD_OLED) (r : Byte)
    (hrows : 1 ≤ s.DISP_ROWS.val ∧ s.DISP_ROWS.val ≤ 4) (hcols : 1 ≤ s.DISP_COLUMNS.val)
    (hr : r.val < s.DISP_ROWS.val) :
    ∃ base : Byte, ([0x80, 0xA0, 0xC0, 0xE0] : List Byte)[r.val]? = some base
      ∧ cursorMoveToRow s r = .ok (sendCommand s base ++ [Event.delay 10])
      ∧ sendCommand s base = frame s 0xF8 base
      ∧ cursorPos s r 0 = .ok (sendCommand s base) := by
  obtain ⟨base, hb, hi⟩ := index_row_command r (by omega)
  refine ⟨base, hb, ?_, ?_, ?_⟩
  · simp only [cursorMoveToRow, hi, bind, Except.bind, pure, Except.pure]
  · rw [sendCommand, SPIBitBang_eq_frame]; rfl
  · have h1 : ¬ (r.val ≥ s.DISP_ROWS.val) := by omega
    have h2 : ¬ ((0 : Byte).val ≥ s.DISP_COLUMNS.val) := by
      show ¬ (0 ≥ s.DISP_COLUMNS.val)
      omega
    have h3 : Byte.ofNat (base.val + (0 : Byte).val) = base := by
      apply Fin.ext
      show (base.val + 0) % 256 = base.val
      have := base.isLt
      omega
    simp only [cursorPos, h1, h2, if_false, hi, bind, Except.bind, pure, Except.pure, h3]

/-- Witness of `cursorMoveToRow_command`: row 1 of the 2 x 16 display. -/
theorem cursorMoveToRow_command_witness :
    ((1 ≤ sampleDriver.DISP_ROWS.val ∧ sampleDriver.DISP_ROWS.val ≤ 4)
      ∧ 1 ≤ sampleDriver.DISP_COLUMNS.val ∧ (1 : Byte).val < sampleDriver.DISP_ROWS.val)
    ∧ ∃ base : Byte, ([0x80, 0xA0, 0xC0, 0xE0] : List Byte)[(1 : Byte).val]? = some base
      ∧ cursorMoveToRow sampleDriver 1 = .ok (sendCommand sampleDriver base ++ [Event.delay 10])
      ∧ sendCommand sampleDriver base = frame sampleDriver 0xF8 base
      ∧ cursorPos sampleDriver 1 0 = .ok (sendCommand sampleDriver base) :=
  ⟨⟨by decide, by decide, by decide⟩,
    cursorMoveToRow_command sampleDriver 1 (by decide) (by decide) (by decide)⟩

/-- C17 (the code departs from the claim): `cursorMoveToRow` does not saturate
its argument. On the 2-row display `cursorMoveToRow(5)` indexes the 4-entry
row-address table at 5, and `cursorMoveToRow(3)` sends the address of row 3
(0xE0), not that of the last row (0xA0), while `cursorPos(5, 0)` and
`cursorPos(3, 0)` send 0xA0. -/
theorem cursorMoveToRow_not_saturated :
    cursorMoveToRow sampleDriver 5 = .error (Fault.outOfBounds 5 4)
    ∧ cursorMoveToRow sampleDriver 3
        = .ok (sendCommand sampleDriver 0xE0 ++ [Event.delay 10])
    ∧ cursorMoveToRow sampleDriver 1
        = .ok (sendCommand sampleDriver 0xA0 ++ [Event.delay 10])
    ∧ cursorMoveToRow sampleDriver 3 ≠ cursorMoveToRow sampleDriver 1
    ∧ cursorMoveToRow sampleDriver 5 ≠ cursorMoveToRow sampleDriver 1
    ∧ cursorPos sampleDriver 5 0 = .ok (sendCommand sampleDriver 0xA0)
    ∧ cursorPos sampleDriver 3 0 = .ok (sendCommand sampleDriver 0xA0)
    ∧ textClearRow sampleDriver zeroStack 5 = .error (Fault.outOfBounds 5 4) := by
  refine ⟨rfl, rfl, rfl, by decide, by decide, by decide, by decide, ?_⟩
  rw [textClearRow_zero sampleDriver zeroStack 5 rfl]
  rfl

end NHD_OLED

/-! ## The stored configuration -/

namespace NHD_OLED

theorem map_pair_ok {α : Type} (s s1 : NHD_OLED) (x : Except Fault α) (t : α)
    (h : x.map (fun t => (s, t)) = .ok (s1, t)) : s1 = s := by
  cases x with
  | error e => cases h
  | ok v =>
    simp only [Except.map, Except.ok.injEq, Prod.mk.injEq] at h
    exact h.1.symm

/-- C18: a call of any public method other than `setupDisplaySize`, `setupPins`
and `begin` that completes leaves the stored configuration (rows, columns and
the three pin identifiers) as it was; `setupDisplaySize` keeps the three pin
identifiers, stores the rows and columns given, and emits no event. -/
theorem configuration_unchanged (g : Stack) (junk : Nat → Byte) (s s1 : NHD_OLED) (c : Call)
    (tr : List Event) (hc : c.configures = false) (h : invoke g junk s c = .ok (s1, tr)) :
    s1 = s
    ∧ ∀ rows columns : Byte,
        invoke g junk s (.setupDisplaySize rows columns)
          = .ok ({ SCLK := s.SCLK, SDIN := s.SDIN, C_S := s.C_S,
                   DISP_ROWS := rows, DISP_COLUMNS := columns }, []) := by
  refine ⟨?_, fun rows columns => rfl⟩
  cases c <;>
    first
    | exact Bool.noConfusion hc
    | exact (Prod.mk.inj (Except.ok.inj h)).1.symm
    | exact map_pair_ok s s1 _ tr h

/-- Witness of `configuration_unchanged`: `cursorPos(1, 3)` on the default
display. -/
theorem configuration_unchanged_witness :
    (Call.cursorPos 1 3).configures = false
    ∧ invoke zeroStack (fun _ => 0) sampleDriver (.cursorPos 1 3)
        = .ok (sampleDriver, sendCommand sampleDriver 0xA3)
    ∧ sampleDriver = sampleDriver
    ∧ ∀ rows columns : Byte,
        invoke zeroStack (fun _ => 0) sampleDriver (.setupDisplaySize rows columns)
          = .ok ({ SCLK := sampleDriver.SCLK, SDIN := sampleDriver.SDIN,
                   C_S := sampleDriver.C_S, DISP_ROWS := rows, DISP_COLUMNS := columns }, []) :=
  ⟨rfl, by decide,
    configuration_unchanged zeroStack (fun _ => 0) sampleDriver sampleDriver (.cursorPos 1 3)
      (sendCommand sampleDriver 0xA3) rfl (by decide)⟩

/-- C19: `autoscroll`, `noAutoscroll`, `leftToRight`, `rightToLeft` and
`createChar` emit no event, whatever the object and the arguments, and a call of
any of them leaves the object as it was. -/
theorem legacy_noops (g : Stack) (junk : Nat → Byte) (s : NHD_OLED) (num : Byte)
    (data : List Byte) :
    (autoscroll s = [] ∧ noAutoscroll s = [] ∧ leftToRight s = [] ∧ rightToLeft s = []
      ∧ createChar s num data = [])
    ∧ invoke g junk s .autoscroll = .ok (s, [])
    ∧ invoke g junk s .noAutoscroll = .ok (s, [])
    ∧ invoke g junk s .leftToRight = .ok (s, [])
    ∧ invoke g junk s .rightToLeft = .ok (s, [])
    ∧ invoke g junk s (.createChar num data) = .ok (s, []) :=
  ⟨⟨rfl, rfl, rfl, rfl, rfl⟩, rfl, rfl, rfl, rfl, rfl⟩

end NHD_OLED

/-! ## The opening phase of the sweep -/

namespace NHD_OLED

theorem sweepOpening_eq (s : NHD_OLED) (buf : List Byte) (row l r : Byte) (td : Nat)
    (move : List Event) (hmove : cursorMoveToRow s row = .ok move)
    (hbuf : buf.length = s.DISP_COLUMNS.val) :
    sweepOpening s buf row l r td
        (Byte.ofInt (((Byte.ofNat (s.DISP_COLUMNS.val / 2)).val : Int) - 1))
      = .ok (Byte.ofInt ((s.DISP_COLUMNS.val / 2 : Nat) - 1
              - ((s.DISP_COLUMNS.val - s.DISP_COLUMNS.val / 2 : Nat) : Int)),
          (List.range (s.DISP_COLUMNS.val - s.DISP_COLUMNS.val / 2)).flatMap (fun k =>
            sweepFrame s move td (openingPassBytes s.DISP_COLUMNS.val buf l r
              (Byte.ofInt ((s.DISP_COLUMNS.val / 2 : Nat) - 1 - (k : Int)))))) := by
  have hC := s.DISP_COLUMNS.isLt
  obtain ⟨st, hst, hv, ho⟩ := forLoop_inv
    (fun _ st => sweepOutStep s buf row l r td st)
    (s.DISP_COLUMNS.val - s.DISP_COLUMNS.val / 2)
    (fun k (st : Byte × List Event) =>
      st.1 = Byte.ofInt ((s.DISP_COLUMNS.val / 2 : Nat) - 1 - (k : Int))
      ∧ st.2 = (List.range k).flatMap (fun k =>
            sweepFrame s move td (openingPassBytes s.DISP_COLUMNS.val buf l r
              (Byte.ofInt ((s.DISP_COLUMNS.val / 2 : Nat) - 1 - (k : Int))))))
    (s.DISP_COLUMNS.val / 2 : Nat)
    (Byte.ofInt (((Byte.ofNat (s.DISP_COLUMNS.val / 2)).val : Int) - 1), [])
    ⟨by
      apply Fin.ext
      simp only [Byte.ofInt, Byte.ofNat]
      omega, rfl⟩
    (by
      intro k st hk ⟨hv, ho⟩
      obtain ⟨sn, out⟩ := st
      simp only at hv ho
      have hsn : sn.val = (((s.DISP_COLUMNS.val / 2 : Nat) - 1 - (k : Int)) % 256).toNat := by
        rw [hv]; rfl
      refine ⟨_, sweepOutStep_eq s buf row l r td move hmove sn out ?_, ?_, ?_⟩
      · simp only [Byte.ofInt, Byte.ofNat, hbuf]
        omega
      · apply Fin.ext
        simp only [Byte.ofInt]
        omega
      · have e : ∀ F : Nat → List Event,
            (List.range (k + 1)).flatMap F = (List.range k).flatMap F ++ F k := fun F => by
          rw [List.range_succ, List.flatMap_append, List.flatMap_cons, List.flatMap_nil,
            List.append_nil]
        show out ++ _ = _
        rw [e, ← ho, ← hv]
        rfl)
  rw [sweepOpening, hst]
  congr 1
  exact Prod.ext hv ho

/-- For an even column count the second loop of `textSweep` emits one frame for
each step `columns/2 - 1, ..., 0`, in that order, with the bytes `openingBytes`. -/
theorem sweepOpening_even (s : NHD_OLED) (buf : List Byte) (row l r : Byte) (td : Nat)
    (move : List Event) (hmove : cursorMoveToRow s row = .ok move)
    (hbuf : buf.length = s.DISP_COLUMNS.val) (heven : s.DISP_COLUMNS.val % 2 = 0) :
    ∃ stepnum : Byte, sweepOpening s buf row l r td
        (Byte.ofInt (((Byte.ofNat (s.DISP_COLUMNS.val / 2)).val : Int) - 1))
      = .ok (stepnum, (List.range (s.DISP_COLUMNS.val / 2)).flatMap (fun j =>
          sweepFrame s move td
            (openingBytes s.DISP_COLUMNS.val buf l r (s.DISP_COLUMNS.val / 2 - 1 - j)))) := by
  have hC := s.DISP_COLUMNS.isLt
  refine ⟨Byte.ofInt ((s.DISP_COLUMNS.val / 2 : Nat) - 1
    - ((s.DISP_COLUMNS.val - s.DISP_COLUMNS.val / 2 : Nat) : Int)), ?_⟩
  rw [sweepOpening_eq s buf row l r td move hmove hbuf]
  have hn : s.DISP_COLUMNS.val - s.DISP_COLUMNS.val / 2 = s.DISP_COLUMNS.val / 2 := by omega
  congr 2
  rw [hn, List.flatMap_def, List.flatMap_def]
  congr 1
  apply List.map_congr_left
  intro j hj
  have hj2 : j < s.DISP_COLUMNS.val / 2 := List.mem_range.mp hj
  have e1 : (Byte.ofInt ((s.DISP_COLUMNS.val / 2 : Nat) - 1 - (j : Int))).val
      = s.DISP_COLUMNS.val / 2 - 1 - j := by
    simp only [Byte.ofInt]
    omega
  have e2 : (Byte.ofNat (s.DISP_COLUMNS.val / 2 - 1 - j + 1)).val
      = s.DISP_COLUMNS.val / 2 - 1 - j + 1 := by
    simp only [Byte.ofNat]
    omega
  have e3 : (Byte.ofInt ((s.DISP_COLUMNS.val : Int) - 2
      - ((s.DISP_COLUMNS.val / 2 - 1 - j : Nat) : Int) * 2)).val
      = s.DISP_COLUMNS.val - 2 - 2 * (s.DISP_COLUMNS.val / 2 - 1 - j) := by
    simp only [Byte.ofInt]
    omega
  simp only [openingPassBytes, openingBytes, e1, e2, e3]

theorem textSweep_of_parts (s : NHD_OLED) (g : Stack) (text : List Byte)
    (length row l r : Byte) (td : Nat) (clear move : List Event) (L : List Byte)
    (hL : centeredBuffer s g text length = .ok L) (hlen : L.length = s.DISP_COLUMNS.val)
    (hclear : textClearRow s g row = .ok clear) (hmove : cursorMoveToRow s row = .ok move) :
    textSweep s g text length row l r td
      = .ok (clear
          ++ (List.range (s.DISP_COLUMNS.val / 2)).flatMap (fun i =>
              sweepFrame s move td (closingBytes s.DISP_COLUMNS.val l r i))
          ++ (List.range (s.DISP_COLUMNS.val - s.DISP_COLUMNS.val / 2)).flatMap (fun k =>
              sweepFrame s move td (openingPassBytes s.DISP_COLUMNS.val L l r
                (Byte.ofInt ((s.DISP_COLUMNS.val / 2 : Nat) - 1 - (k : Int)))))
          ++ move ++ L.flatMap (sendData s)) := by
  simp only [textSweep, hL, hclear, bind, Except.bind, pure, Except.pure,
    sweepClosing_eq s row l r td move hmove, sweepOpening_eq s L row l r td move hmove hlen, hmove]
  rw [print_eq s L s.DISP_COLUMNS hlen]
  rfl

/-- C11 (the code departs from the claim): on a display of 5 columns the second
loop of `textSweep` runs 3 passes, one more than the `columns/2 = 2` steps of
the first loop. After the frames of steps 1 and 0 it emits a third frame in
which `stepnum` has wrapped to 255: 255 spaces, the right marker, the whole
5-byte buffer, the left marker and 255 spaces, 517 data bytes in all. -/
theorem textSweep_odd_columns :
    textSweep oddDriver zeroStack [0x48, 0x49] 2 0 0x3E 0x3C 50
      = .ok ((sendCommand oddDriver 0x80 ++ [Event.delay 10]
              ++ (List.replicate 5 (0x20 : Byte)).flatMap (sendData oddDriver))
          ++ (sweepFrame oddDriver (sendCommand oddDriver 0x80 ++ [Event.delay 10]) 50
                (closingBytes 5 0x3E 0x3C 0)
              ++ sweepFrame oddDriver (sendCommand oddDriver 0x80 ++ [Event.delay 10]) 50
                (closingBytes 5 0x3E 0x3C 1))
          ++ (sweepFrame oddDriver (sendCommand oddDriver 0x80 ++ [Event.delay 10]) 50
                (openingBytes 5 [0x20, 0x48, 0x49, 0x20, 0x20] 0x3E 0x3C 1)
              ++ sweepFrame oddDriver (sendCommand oddDriver 0x80 ++ [Event.delay 10]) 50
                (openingBytes 5 [0x20, 0x48, 0x49, 0x20, 0x20] 0x3E 0x3C 0)
              ++ sweepFrame oddDriver (sendCommand oddDriver 0x80 ++ [Event.delay 10]) 50
                (List.replicate 255 (0x20 : Byte) ++ [0x3C] ++ [0x20, 0x48, 0x49, 0x20, 0x20]
                  ++ [0x3E] ++ List.replicate 255 (0x20 : Byte)))
          ++ (sendCommand oddDriver 0x80 ++ [Event.delay 10])
          ++ ([0x20, 0x48, 0x49, 0x20, 0x20] : List Byte).flatMap (sendData oddDriver))
    ∧ oddDriver.DISP_COLUMNS.val / 2 = 2
    ∧ (List.replicate 255 (0x20 : Byte) ++ [0x3C] ++ [0x20, 0x48, 0x49, 0x20, 0x20]
        ++ [0x3E] ++ List.replicate 255 (0x20 : Byte)).length = 517 := by
  refine ⟨?_, by decide, by simp only [List.length_append, List.length_replicate, List.length_cons, List.length_nil]⟩
  have hc : List.range (oddDriver.DISP_COLUMNS.val / 2) = [0, 1] := by decide
  have ho : List.range (oddDriver.DISP_COLUMNS.val - oddDriver.DISP_COLUMNS.val / 2)
      = [0, 1, 2] := by decide
  have b1 : openingPassBytes oddDriver.DISP_COLUMNS.val [0x20, 0x48, 0x49, 0x20, 0x20] 0x3E 0x3C
      (Byte.ofInt ((oddDriver.DISP_COLUMNS.val / 2 : Nat) - 1 - (0 : Int)))
      = openingBytes 5 [0x20, 0x48, 0x49, 0x20, 0x20] 0x3E 0x3C 1 := by decide
  have b2 : openingPassBytes oddDriver.DISP_COLUMNS.val [0x20, 0x48, 0x49, 0x20, 0x20] 0x3E 0x3C
      (Byte.ofInt ((oddDriver.DISP_COLUMNS.val / 2 : Nat) - 1 - (1 : Int)))
      = openingBytes 5 [0x20, 0x48, 0x49, 0x20, 0x20] 0x3E 0x3C 0 := by decide
  have b3 : openingPassBytes oddDriver.DISP_COLUMNS.val [0x20, 0x48, 0x49, 0x20, 0x20] 0x3E 0x3C
      (Byte.ofInt ((oddDriver.DISP_COLUMNS.val / 2 : Nat) - 1 - (2 : Int)))
      = List.replicate 255 (0x20 : Byte) ++ [0x3C] ++ [0x20, 0x48, 0x49, 0x20, 0x20]
        ++ [0x3E] ++ List.replicate 255 (0x20 : Byte) := by
    set_option maxRecDepth 20000 in decide
  have c1 : closingBytes oddDriver.DISP_COLUMNS.val 0x3E 0x3C 0 = closingBytes 5 0x3E 0x3C 0 := rfl
  have c2 : closingBytes oddDriver.DISP_COLUMNS.val 0x3E 0x3C 1 = closingBytes 5 0x3E 0x3C 1 := rfl
  have hclear : textClearRow oddDriver zeroStack 0
      = .ok (sendCommand oddDriver 0x80 ++ [Event.delay 10]
          ++ (List.replicate 5 (0x20 : Byte)).flatMap (sendData oddDriver)) := by
    rw [textClearRow_zero oddDriver zeroStack 0 rfl]
    rfl
  rw [textSweep_of_parts oddDriver zeroStack [0x48, 0x49] 2 0 0x3E 0x3C 50
    (sendCommand oddDriver 0x80 ++ [Event.delay 10]
      ++ (List.replicate 5 (0x20 : Byte)).flatMap (sendData oddDriver))
    (sendCommand oddDriver 0x80 ++ [Event.delay 10])
    [0x20, 0x48, 0x49, 0x20, 0x20] (by decide) (by decide) hclear rfl, hc, ho]
  simp only [List.flatMap_cons, List.flatMap_nil, List.append_nil, b1, b2, b3, c1, c2,
    Nat.cast_ofNat, Nat.cast_zero, Nat.cast_one, List.append_assoc]

end NHD_OLED

/-! ## Strings from program memory -/

theorem forLoop_congr {σ : Type} (b1 b2 : Int → σ → Except Fault σ) :
    ∀ (n : Nat) (lo : Int) (init : σ),
      (∀ k st, k < n → b1 (lo + (k : Int)) st = b2 (lo + (k : Int)) st) →
      forLoop b1 n lo init = forLoop b2 n lo init := by
  intro n
  induction n with
  | zero => intro lo init _; rfl
  | succ n ih =>
    intro lo init h
    have h0 := h 0 init (Nat.succ_pos n)
    simp only [Nat.cast_zero, add_zero] at h0
    simp only [forLoop, h0]
    cases b2 lo init with
    | error e => rfl
    | ok st1 =>
      simp only
      apply ih
      intro k st hk
      have := h (k + 1) st (Nat.succ_lt_succ hk)
      have e : lo + 1 + (k : Int) = lo + ((k + 1 : Nat) : Int) := by push_cast; ring
      rw [e]
      exact this

namespace NHD_OLED

theorem strcpy_P_eq (rest : List Byte) :
    ∀ (str pre tail : List Byte), (∀ c ∈ str, c.val ≠ 0) → str.length + 1 ≤ tail.length →
      strcpy_P (str ++ 0 :: rest) (pre.length : Int) (pre ++ tail)
        = .ok (pre ++ str ++ [0] ++ tail.drop (str.length + 1)) := by
  intro str
  induction str with
  | nil =>
    intro pre tail _ hfit
    cases tail with
    | nil => simp at hfit
    | cons t ts =>
      simp only [List.nil_append, strcpy_P]
      rw [store_nat _ _ _ (by simp)]
      simp
  | cons c str ih =>
    intro pre tail hnz hfit
    cases tail with
    | nil => simp at hfit
    | cons t ts =>
      have hc : c.val ≠ 0 := hnz c (by simp)
      simp only [List.cons_append, strcpy_P]
      rw [store_nat _ _ _ (by simp)]
      simp only [hc, if_false]
      have e : (pre ++ t :: ts).set pre.length c = (pre ++ [c]) ++ ts := by simp
      have e2 : (pre.length : Int) + 1 = ((pre ++ [c]).length : Int) := by simp
      rw [e, e2]
      show strcpy_P (str ++ 0 :: rest) _ _ = _
      rw [ih (pre ++ [c]) ts (fun x hx => hnz x (by simp [hx])) (by simp at hfit; omega)]
      simp

theorem scanLength_eq (s : NHD_OLED) (str tl : List Byte) (hnz : ∀ c ∈ str, c.val ≠ 0)
    (hlen : str.length ≤ s.DISP_COLUMNS.val) :
    ∀ (n : Nat) (len : Byte), len.val + n = str.length →
      scanLength s (str ++ 0 :: tl) len = .ok (Byte.ofNat str.length) := by
  have hC := s.DISP_COLUMNS.isLt
  intro n
  induction n with
  | zero =>
    intro len h
    rw [scanLength, index_nat _ len.val (by simp; omega)]
    have e : (str ++ 0 :: tl).get ⟨len.val, by simp; omega⟩ = 0 := by
      simp only [List.get_eq_getElem]
      rw [List.getElem_append_right (by omega)]
      simp [show len.val - str.length = 0 by omega]
    rw [e]
    simp only [Fin.val_zero, ne_eq, not_true_eq_false, false_and, if_false]
    congr 1
    apply Fin.ext
    simp only [Byte.ofNat]
    omega
  | succ n ih =>
    intro len h
    have hlt : len.val < str.length := by omega
    rw [scanLength, index_nat _ len.val (by simp; omega)]
    have e : (str ++ 0 :: tl).get ⟨len.val, by simp; omega⟩ = str.get ⟨len.val, hlt⟩ := by
      simp only [List.get_eq_getElem]
      rw [List.getElem_append_left hlt]
    have hc : (str.get ⟨len.val, hlt⟩).val ≠ 0 := hnz _ (List.get_mem _ _ _)
    rw [e]
    simp only [ne_eq, hc, not_false_eq_true, true_and, show len.val < s.DISP_COLUMNS.val by omega,
      if_true]
    apply ih
    simp only [Byte.ofNat]
    omega

theorem print_take (s : NHD_OLED) (text : List Byte) (len : Byte) (h : len.val ≤ text.length) :
    print s text len = .ok ((text.take len.val).flatMap (sendData s)) := by
  obtain ⟨out, ho, hinv⟩ := forLoop_inv
    (fun i out => do
      let c ← index text i
      pure (out ++ sendData s c)) len.val
    (fun k out => out = (text.take k).flatMap (sendData s)) 0 [] (by simp)
    (by
      intro k out hk hinv
      have hk2 : k < text.length := by omega
      refine ⟨out ++ sendData s (text.get ⟨k, hk2⟩), ?_, ?_⟩
      · simp only [zero_add, index_nat text k hk2, bind, Except.bind, pure, Except.pure]
      · show _ = _
        rw [List.take_succ, List.getElem?_eq_getElem hk2, List.flatMap_append]
        simp [List.flatMap_cons, hinv])
  rw [print, ho, hinv]

theorem centeredBuffer_congr (s : NHD_OLED) (g : Stack) (text1 text2 : List Byte) (length : Byte)
    (h : ∀ k : Nat, k < length.val → index text1 (k : Int) = index text2 (k : Int)) :
    centeredBuffer s g text1 length = centeredBuffer s g text2 length := by
  simp only [centeredBuffer, bind, Except.bind]
  cases forLoop (fun i line => store line i (0x20 : Byte)) s.DISP_COLUMNS.val 0
      ((List.range s.DISP_COLUMNS.val).map g.line) with
  | error e => rfl
  | ok buf =>
    simp only
    apply forLoop_congr
    intro k st hk
    simp only [zero_add, h k hk]

/-- C20: for a stored string `str` without NUL characters, of length at most
`columns` and followed by its NUL terminator, `textPrintTextFromProgmem` sends
exactly the `strlen(str) = min(strlen(str), columns)` data frames of `str`, in
order, so no frame carries the terminator; the scanned length `len` equals
`strlen(str)` and does not exceed `columns`, and
`textPrintTextFromProgmemCentered` is `textPrintCentered` called with the copied
buffer and that length, which reads the characters of `str`. -/
theorem textPrintTextFromProgmem_sends (s : NHD_OLED) (g : Stack) (junk : Nat → Byte)
    (str rest : List Byte) (row : Byte) (hnz : ∀ c ∈ str, c.val ≠ 0)
    (hlen : str.length ≤ s.DISP_COLUMNS.val) :
    textPrintTextFromProgmem s junk (str ++ 0 :: rest) = .ok (str.flatMap (sendData s))
    ∧ min str.length s.DISP_COLUMNS.val = str.length
    ∧ (0 : Byte) ∉ str
    ∧ ∃ (buf : List Byte) (len : Byte),
        strcpy_P (str ++ 0 :: rest) 0 ((List.range (s.DISP_COLUMNS.val + 1)).map junk) = .ok buf
        ∧ buf.length = s.DISP_COLUMNS.val + 1
        ∧ scanLength s buf 0 = .ok len
        ∧ len.val = str.length ∧ len.val ≤ s.DISP_COLUMNS.val
        ∧ buf.take len.val = str
        ∧ textPrintTextFromProgmemCentered s g junk (str ++ 0 :: rest) row
            = textPrintCentered s g buf len row
        ∧ textPrintCentered s g buf len row = textPrintCentered s g str len row := by
  have hC := s.DISP_COLUMNS.isLt
  have hcopy : strcpy_P (str ++ 0 :: rest) 0 ((List.range (s.DISP_COLUMNS.val + 1)).map junk)
      = .ok (str ++ 0 :: ((List.range (s.DISP_COLUMNS.val + 1)).map junk).drop
          (str.length + 1)) := by
    have h := strcpy_P_eq rest str [] ((List.range (s.DISP_COLUMNS.val + 1)).map junk) hnz
      (by simp; omega)
    simpa using h
  have hscan := scanLength_eq s str
    (((List.range (s.DISP_COLUMNS.val + 1)).map junk).drop (str.length + 1)) hnz hlen
    str.length 0 (by simp)
  have hval : (Byte.ofNat str.length).val = str.length := by
    simp only [Byte.ofNat]
    omega
  have htake : (str ++ 0 :: ((List.range (s.DISP_COLUMNS.val + 1)).map junk).drop
      (str.length + 1)).take (Byte.ofNat str.length).val = str := by
    rw [hval]
    simp
  refine ⟨?_, by omega, ?_, _, _, hcopy, ?_, hscan, hval, by omega, htake, ?_, ?_⟩
  · simp only [textPrintTextFromProgmem, hcopy, hscan, bind, Except.bind]
    rw [print_take s _ _ (by rw [hval]; simp), htake]
  · intro h0
    exact hnz 0 h0 rfl
  · simp
    omega
  · simp only [textPrintTextFromProgmemCentered, hcopy, hscan, bind, Except.bind]
  · simp only [textPrintCentered]
    rw [centeredBuffer_congr s g _ str (Byte.ofNat str.length)]
    intro k hk
    rw [hval] at hk
    rw [index_nat _ k (by simp; omega), index_nat str k hk]
    congr 1
    simp only [List.get_eq_getElem]
    rw [List.getElem_append_left hk]

/-- Witness of `textPrintTextFromProgmem_sends`: the stored string "HI" on the
2 x 16 display. -/
theorem textPrintTextFromProgmem_sends_witness :
    ((∀ c ∈ ([0x48, 0x49] : List Byte), c.val ≠ 0)
      ∧ ([0x48, 0x49] : List Byte).length ≤ sampleDriver.DISP_COLUMNS.val)
    ∧ textPrintTextFromProgmem sampleDriver (fun _ => 0) ([0x48, 0x49] ++ 0 :: [])
        = .ok (([0x48, 0x49] : List Byte).flatMap (sendData sampleDriver)) := by
  have hnz : ∀ c ∈ ([0x48, 0x49] : List Byte), c.val ≠ 0 := by
    intro c hc
    simp only [List.mem_cons, List.mem_nil_iff, or_false] at hc
    rcases hc with rfl | rfl <;> decide
  exact ⟨⟨hnz, by decide⟩,
    (textPrintTextFromProgmem_sends sampleDriver zeroStack (fun _ => 0) [0x48, 0x49] [] 0
      hnz (by decide)).1⟩

end NHD_OLED

/-! ## Display control -/

namespace NHD_OLED

theorem displayControl_eq (s : NHD_OLED) (display cursor block : Byte) :
    displayControl s display cursor block
      = sendCommand s (Byte.ofNat (0x08 + 4 * (if display.val ≠ 0 then 1 else 0)
          + 2 * (if cursor.val ≠ 0 then 1 else 0) + (if block.val ≠ 0 then 1 else 0))) := by
  by_cases hd : display.val = 0 <;> by_cases hc : cursor.val = 0 <;>
    by_cases hb : block.val = 0 <;>
    simp [displayControl, hd, hc, hb, Byte.ofNat] <;> rfl

/-- C21: for all bytes `display`, `cursor`, `block`, `displayControl` sends
exactly one command frame, with byte
`0x08 + 4*[display != 0] + 2*[cursor != 0] + [block != 0]`; the byte lies in
0x08..0x0F and depends only on which arguments are non-zero;
`displayControl(1,0,0)` sends the command byte 0x0C of `displayOn` and
`displayControl(0,0,0)` the command byte 0x08 of `displayOff`. -/
theorem displayControl_command (s : NHD_OLED) (display cursor block : Byte) :
    (∃ b : Byte,
      b.val = 0x08 + 4 * (if display.val ≠ 0 then 1 else 0)
          + 2 * (if cursor.val ≠ 0 then 1 else 0) + (if block.val ≠ 0 then 1 else 0)
      ∧ 0x08 ≤ b.val ∧ b.val ≤ 0x0F
      ∧ displayControl s display cursor block = sendCommand s b
      ∧ sendCommand s b = frame s 0xF8 b)
    ∧ (∀ d c k : Byte, (d.val ≠ 0 ↔ display.val ≠ 0) → (c.val ≠ 0 ↔ cursor.val ≠ 0) →
        (k.val ≠ 0 ↔ block.val ≠ 0) →
        displayControl s d c k = displayControl s display cursor block)
    ∧ displayControl s 1 0 0 = sendCommand s 0x0C
    ∧ displayOn s = sendCommand s 0x0C ++ [Event.delay 10]
    ∧ displayControl s 0 0 0 = sendCommand s 0x08
    ∧ displayOff s = sendCommand s 0x08 ++ [Event.delay 10] := by
  refine ⟨⟨_, ?_, ?_, ?_, displayControl_eq s display cursor block, ?_⟩, ?_, rfl, rfl, rfl, rfl⟩
  · simp only [Byte.ofNat]
    split_ifs <;> rfl
  · simp only [Byte.ofNat]
    split_ifs <;> decide
  · simp only [Byte.ofNat]
    split_ifs <;> decide
  · rw [sendCommand, SPIBitBang_eq_frame]; rfl
  · intro d c k hd hc hk
    rw [displayControl_eq, displayControl_eq]
    simp only [hd, hc, hk]

/-- Witness of `displayControl_command`: `displayControl(7, 0, 0)` sends the
same frame as `displayControl(1, 0, 0)`. -/
theorem displayControl_command_witness :
    (((7 : Byte).val ≠ 0 ↔ (1 : Byte).val ≠ 0) ∧ ((0 : Byte).val ≠ 0 ↔ (0 : Byte).val ≠ 0))
    ∧ displayControl sampleDriver 7 0 0 = displayControl sampleDriver 1 0 0 :=
  ⟨⟨by decide, by decide⟩,
    (displayControl_command sampleDriver 1 0 0).2.1 7 0 0 (by decide) (by decide) (by decide)⟩

/-- C22, as stated, fails: `noBlink` does not leave the cursor feature as it
was. Against the display-control setting 0x0C (display on, cursor off, as
`noCursor` sends it) the command of `noBlink` is 0x0E, whose cursor bit is set. -/
theorem noBlink_sets_cursor :
    ¬ (∀ prior : Byte, 0x08 ≤ prior.val → prior.val ≤ 0x0F →
        ∃ b : Byte, noBlink sampleDriver = sendCommand sampleDriver b
          ∧ bitOf b 0 = 0 ∧ bitOf b 1 = bitOf prior 1 ∧ bitOf b 2 = bitOf prior 2) := by
  intro h
  obtain ⟨b, hb, _, h1, _⟩ := h 0x0C (by decide) (by decide)
  have e : noBlink sampleDriver = sendCommand sampleDriver 0x0E := rfl
  rw [e] at hb
  have hb2 := sendCommand_injective sampleDriver _ _ hb
  rw [← hb2] at h1
  exact absurd h1 (by decide)

/-- C22, amended: each of `cursor`, `noCursor`, `blink`, `noBlink` sends exactly
one display-control command frame with the display-on bit (bit 2) set, an
absolute setting of the three control bits: `cursor` sends 0x0E, `noCursor`
0x0C, `blink` 0x0F and `noBlink` 0x0E, the command of `cursor`. The commands of
`cursor` and `noCursor` differ only in the cursor bit (bit 1), those of `blink`
and `noBlink` only in the blink bit (bit 0). -/
theorem legacy_toggles (s : NHD_OLED) :
    (cursor s = sendCommand s 0x0E ∧ noCursor s = sendCommand s 0x0C
      ∧ blink s = sendCommand s 0x0F ∧ noBlink s = sendCommand s 0x0E)
    ∧ noBlink s = cursor s
    ∧ (∀ b : Byte, sendCommand s b = frame s 0xF8 b)
    ∧ [7, 6, 5, 4, 3, 2, 1, 0].map (bitOf 0x0E) = [0, 0, 0, 0, 1, 1, 1, 0]
    ∧ [7, 6, 5, 4, 3, 2, 1, 0].map (bitOf 0x0C) = [0, 0, 0, 0, 1, 1, 0, 0]
    ∧ [7, 6, 5, 4, 3, 2, 1, 0].map (bitOf 0x0F) = [0, 0, 0, 0, 1, 1, 1, 1] := by
  refine ⟨⟨rfl, rfl, rfl, rfl⟩, rfl, ?_, by decide, by decide, by decide⟩
  intro b
  rw [sendCommand, SPIBitBang_eq_frame]
  rfl

/-! ## Decoding a frame -/

theorem emittedBits_frame (s : NHD_OLED) (tag v : Byte) :
    emittedBits (frame s tag v) = frameBits tag v := rfl

theorem decodeFrame_frameBits (v f : Byte) :
    decodeFrame (frameBits (tagByte f) v) = (v, decide (f.val ≠ 0)) := by
  have hv := v.isLt
  have a1 : (bitOf 0xFA 1).val = 1 := by decide
  have b1 : (bitOf 0xF8 1).val = 0 := by decide
  apply Prod.ext
  · apply Fin.ext
    simp only [decodeFrame, frameBits, List.getD_cons_succ, List.getD_cons_zero, bitOf,
      Byte.ofNat]
    norm_num
    omega
  · by_cases hf : f.val = 0
    · simp [decodeFrame, frameBits, tagByte, hf, a1]
    · simp [decodeFrame, frameBits, tagByte, hf, b1]

/-- C25: the values that `SPIBitBang(v, f)` puts on the data line are the 24
bits of the frame, and the decoder that rebuilds the byte from transmitted bits
8-11 (bits 0-3) and 16-19 (bits 4-7) and the flag from transmitted bit 6 returns
`(v, f != 0)`; two calls emit the same events exactly when the bytes are equal
and the flags are both zero or both non-zero. -/
theorem frame_lossless (s : NHD_OLED) (v f v2 f2 : Byte) :
    emittedBits (SPIBitBang s v f) = frameBits (tagByte f) v
    ∧ (emittedBits (SPIBitBang s v f)).length = 24
    ∧ decodeFrame (emittedBits (SPIBitBang s v f)) = (v, decide (f.val ≠ 0))
    ∧ (SPIBitBang s v f = SPIBitBang s v2 f2 ↔ v = v2 ∧ (f.val = 0 ↔ f2.val = 0)) := by
  have e : ∀ a b : Byte, emittedBits (SPIBitBang s a b) = frameBits (tagByte b) a := by
    intro a b
    rw [SPIBitBang_eq_frame, emittedBits_frame]
  refine ⟨e v f, ?_, ?_, ?_⟩
  · rw [e]; rfl
  · rw [e, decodeFrame_frameBits]
  · constructor
    · intro h
      have h1 : decodeFrame (emittedBits (SPIBitBang s v f))
          = decodeFrame (emittedBits (SPIBitBang s v2 f2)) := by rw [h]
      rw [e, e, decodeFrame_frameBits, decodeFrame_frameBits] at h1
      obtain ⟨ha, hb⟩ := Prod.mk.inj h1
      exact ⟨ha, not_iff_not.mp (decide_eq_decide.mp hb)⟩
    · rintro ⟨hv, hf⟩
      rw [SPIBitBang_eq_frame, SPIBitBang_eq_frame, hv]
      have ht : tagByte f = tagByte f2 := by
        simp only [tagByte, hf]
      rw [ht]

end NHD_OLED

/-! ## Injectivity of the cursor address -/

namespace NHD_OLED

theorem cursorPos_value (s : NHD_OLED) (r c : Byte) (hrows : s.DISP_ROWS.val ≤ 4)
    (hr : r.val < s.DISP_ROWS.val) (hc : c.val < s.DISP_COLUMNS.val) :
    ∃ base : Byte, ([0x80, 0xA0, 0xC0, 0xE0] : List Byte)[r.val]? = some base
      ∧ base.val = 0x80 + 0x20 * r.val
      ∧ cursorPos s r c = .ok (sendCommand s (Byte.ofNat (base.val + c.val))) := by
  obtain ⟨base, hb, hi⟩ := index_row_command r (by omega)
  refine ⟨base, hb, ?_, ?_⟩
  · have hv : r.val = 0 ∨ r.val = 1 ∨ r.val = 2 ∨ r.val = 3 := by omega
    rcases hv with h | h | h | h <;>
    · rw [h] at hb
      simp only [List.getElem?_cons_zero, List.getElem?_cons_succ, Option.some.injEq] at hb
      rw [← hb, h]
      rfl
  · have h1 : ¬ (r.val ≥ s.DISP_ROWS.val) := by omega
    have h2 : ¬ (c.val ≥ s.DISP_COLUMNS.val) := by omega
    simp only [cursorPos, h1, h2, if_false, hi, bind, Except.bind, pure, Except.pure]

theorem cursorPos_eq_address (s : NHD_OLED) (r1 c1 r2 c2 : Byte) (hrows : s.DISP_ROWS.val ≤ 4)
    (h1 : r1.val < s.DISP_ROWS.val ∧ c1.val < s.DISP_COLUMNS.val)
    (h2 : r2.val < s.DISP_ROWS.val ∧ c2.val < s.DISP_COLUMNS.val)
    (h : cursorPos s r1 c1 = cursorPos s r2 c2) :
    (0x80 + 0x20 * r1.val + c1.val) % 256 = (0x80 + 0x20 * r2.val + c2.val) % 256 := by
  obtain ⟨b1, _, hv1, e1⟩ := cursorPos_value s r1 c1 hrows h1.1 h1.2
  obtain ⟨b2, _, hv2, e2⟩ := cursorPos_value s r2 c2 hrows h2.1 h2.2
  rw [e1, e2] at h
  have h3 := congrArg Fin.val (sendCommand_injective s _ _ (Except.ok.inj h))
  simp only [Byte.ofNat, hv1, hv2] at h3
  exact h3

/-- C24, as stated, fails: with a single row and 33 columns, a geometry with
`1 <= rows <= 4` and `columns > 32`, no two different in-range positions give
the same command. -/
theorem cursorPos_one_row_no_collision :
    (1 ≤ oneRowWide.DISP_ROWS.val ∧ oneRowWide.DISP_ROWS.val ≤ 4
      ∧ 32 < oneRowWide.DISP_COLUMNS.val)
    ∧ ¬ ∃ r1 c1 r2 c2 : Byte,
        (r1.val < oneRowWide.DISP_ROWS.val ∧ c1.val < oneRowWide.DISP_COLUMNS.val)
        ∧ (r2.val < oneRowWide.DISP_ROWS.val ∧ c2.val < oneRowWide.DISP_COLUMNS.val)
        ∧ (r1, c1) ≠ (r2, c2)
        ∧ cursorPos oneRowWide r1 c1 = cursorPos oneRowWide r2 c2 := by
  refine ⟨by decide, ?_⟩
  rintro ⟨r1, c1, r2, c2, h1, h2, hne, h⟩
  have h3 := cursorPos_eq_address oneRowWide r1 c1 r2 c2 (by decide) h1 h2 h
  have hR : oneRowWide.DISP_ROWS.val = 1 := rfl
  have hC : oneRowWide.DISP_COLUMNS.val = 33 := rfl
  rw [hR, hC] at h1 h2
  apply hne
  exact Prod.ext (Fin.ext (by simp only; omega)) (Fin.ext (by simp only; omega))

/-- C24, amended: on a display with 1 to 4 rows, two different in-range
positions give different commands when `columns <= 32` or when there is a single
row; for `columns <= 32` the sum `base[row] + column` does not exceed 255 and the
command byte is at least 0x80 (bit 7 set); for `columns > 32` and at least 2
rows the in-range positions (0, 32) and (1, 0) give the same command 0xA0. -/
theorem cursorPos_injective (s : NHD_OLED) (r1 c1 r2 c2 : Byte)
    (hrows : 1 ≤ s.DISP_ROWS.val ∧ s.DISP_ROWS.val ≤ 4)
    (h1 : r1.val < s.DISP_ROWS.val ∧ c1.val < s.DISP_COLUMNS.val)
    (h2 : r2.val < s.DISP_ROWS.val ∧ c2.val < s.DISP_COLUMNS.val)
    (hne : (r1, c1) ≠ (r2, c2)) :
    (s.DISP_COLUMNS.val ≤ 32 ∨ s.DISP_ROWS.val = 1 → cursorPos s r1 c1 ≠ cursorPos s r2 c2)
    ∧ (s.DISP_COLUMNS.val ≤ 32 →
        ∃ base b : Byte, ([0x80, 0xA0, 0xC0, 0xE0] : List Byte)[r1.val]? = some base
          ∧ base.val + c1.val ≤ 255 ∧ b.val = base.val + c1.val
          ∧ 0x80 ≤ b.val ∧ bitOf b 7 = 1
          ∧ cursorPos s r1 c1 = .ok (sendCommand s b))
    ∧ (32 < s.DISP_COLUMNS.val → 2 ≤ s.DISP_ROWS.val →
        ((0 : Byte).val < s.DISP_ROWS.val ∧ (32 : Byte).val < s.DISP_COLUMNS.val)
        ∧ ((1 : Byte).val < s.DISP_ROWS.val ∧ (0 : Byte).val < s.DISP_COLUMNS.val)
        ∧ ((0 : Byte), (32 : Byte)) ≠ ((1 : Byte), (0 : Byte))
        ∧ cursorPos s 0 32 = .ok (sendCommand s 0xA0)
        ∧ cursorPos s 1 0 = .ok (sendCommand s 0xA0)) := by
  have hv1 := r1.isLt
  have hv2 := r2.isLt
  have hw1 := c1.isLt
  have hw2 := c2.isLt
  refine ⟨?_, ?_, ?_⟩
  · intro hgeo h
    have h3 := cursorPos_eq_address s r1 c1 r2 c2 hrows.2 h1 h2 h
    apply hne
    rcases hgeo with hg | hg
    · exact Prod.ext (Fin.ext (by simp only; omega)) (Fin.ext (by simp only; omega))
    · exact Prod.ext (Fin.ext (by simp only; omega)) (Fin.ext (by simp only; omega))
  · intro hcols
    obtain ⟨base, hb, hv, e⟩ := cursorPos_value s r1 c1 hrows.2 h1.1 h1.2
    have hval : (Byte.ofNat (base.val + c1.val)).val = base.val + c1.val := by
      simp only [Byte.ofNat]
      omega
    refine ⟨base, _, hb, by omega, hval, by omega, ?_, e⟩
    apply Fin.ext
    simp only [bitOf, Byte.ofNat] at hval ⊢
    norm_num
    omega
  · intro hcols hr
    have z : (0 : Byte).val = 0 := rfl
    have o : (1 : Byte).val = 1 := rfl
    have t : (32 : Byte).val = 32 := rfl
    refine ⟨⟨by omega, by omega⟩, ⟨by omega, by omega⟩, by decide, ?_, ?_⟩
    · obtain ⟨base, _, hv, e⟩ := cursorPos_value s 0 32 hrows.2 (by omega) (by omega)
      rw [e]
      congr 2
      apply Fin.ext
      simp only [Byte.ofNat, hv, z, t]
      rfl
    · obtain ⟨base, _, hv, e⟩ := cursorPos_value s 1 0 hrows.2 (by omega) (by omega)
      rw [e]
      congr 2
      apply Fin.ext
      simp only [Byte.ofNat, hv, z, o]
      rfl

/-- Witness of `cursorPos_injective`: positions (0, 3) and (1, 3) of the default
2 x 16 display. -/
theorem cursorPos_injective_witness :
    ((1 ≤ sampleDriver.DISP_ROWS.val ∧ sampleDriver.DISP_ROWS.val ≤ 4)
      ∧ ((0 : Byte).val < sampleDriver.DISP_ROWS.val ∧ (3 : Byte).val < sampleDriver.DISP_COLUMNS.val)
      ∧ ((1 : Byte).val < sampleDriver.DISP_ROWS.val ∧ (3 : Byte).val < sampleDriver.DISP_COLUMNS.val)
      ∧ ((0 : Byte), (3 : Byte)) ≠ ((1 : Byte), (3 : Byte))
      ∧ sampleDriver.DISP_COLUMNS.val ≤ 32)
    ∧ cursorPos sampleDriver 0 3 ≠ cursorPos sampleDriver 1 3
    ∧ (32 < oneRowWide.DISP_COLUMNS.val ∧ 2 ≤ ({ oneRowWide with DISP_ROWS := 2 } : NHD_OLED).DISP_ROWS.val)
    ∧ cursorPos { oneRowWide with DISP_ROWS := 2 } 0 32
        = cursorPos { oneRowWide with DISP_ROWS := 2 } 1 0 := by
  refine ⟨⟨by decide, by decide, by decide, by decide, by decide⟩, ?_, ⟨by decide, by decide⟩, ?_⟩
  · exact (cursorPos_injective sampleDriver 0 3 1 3 (by decide) (by decide) (by decide)
      (by decide)).1 (Or.inl (by decide))
  · obtain ⟨_, _, _, e1, e2⟩ :=
      (cursorPos_injective { oneRowWide with DISP_ROWS := 2 } 0 3 1 3 (by decide) (by decide)
        (by decide) (by decide)).2.2 (by decide) (by decide)
    rw [e1, e2]

end NHD_OLED

/-! ## Bounds of the line buffer -/

theorem forLoop_succ_last {σ : Type} (body : Int → σ → Except Fault σ) :
    ∀ (n : Nat) (lo : Int) (init : σ),
      forLoop body (n + 1) lo init
        = match forLoop body n lo init with
          | .error e => .error e
          | .ok st => body (lo + (n : Int)) st := by
  intro n
  induction n with
  | zero =>
    intro lo init
    simp only [forLoop, Nat.cast_zero, add_zero]
    cases body lo init <;> rfl
  | succ n ih =>
    intro lo init
    rw [forLoop]
    cases hb : body lo init with
    | error e => simp only [forLoop, hb]
    | ok st1 =>
      simp only
      rw [ih (lo + 1) st1]
      have e : lo + 1 + (n : Int) = lo + ((n + 1 : Nat) : Int) := by push_cast; ring
      rw [e]
      conv_rhs => rw [forLoop]
      simp only [hb]

namespace NHD_OLED

theorem centeredBuffer_overflow (s : NHD_OLED) (g : Stack) (text : List Byte) (length : Byte)
    (hlen : length.val = s.DISP_COLUMNS.val + 1) (htext : text.length = length.val) :
    Int.tdiv ((s.DISP_COLUMNS.val : Int) - (length.val : Int)) 2 = 0
    ∧ centeredBuffer s g text length
        = .error (Fault.outOfBounds s.DISP_COLUMNS.val s.DISP_COLUMNS.val) := by
  have e : Int.tdiv ((s.DISP_COLUMNS.val : Int) - (length.val : Int)) 2 = 0 := by
    have e1 : (s.DISP_COLUMNS.val : Int) - (length.val : Int) = -1 := by omega
    rw [e1]
    rfl
  refine ⟨e, ?_⟩
  have hc := clearLoop ((List.range s.DISP_COLUMNS.val).map g.line)
  simp only [List.length_map, List.length_range] at hc
  obtain ⟨L, hL, hLlen, _⟩ := storeLoop
    (fun i buf => do
      let c ← index text i
      store buf ((0 : Int) + i) c)
    (fun k => text.getD k 0x20) s.DISP_COLUMNS.val 0 0
    (List.replicate s.DISP_COLUMNS.val (0x20 : Byte)) (by simp) (by
      intro k buf hk hbl
      have hk2 : k < text.length := by omega
      simp only [zero_add, index_nat text k hk2, bind, Except.bind]
      rw [store_nat buf k _ (by simp at hbl; omega)]
      simp [List.getD_eq_getElem?_getD, List.getElem?_eq_getElem hk2])
  simp only [List.length_replicate] at hLlen
  simp only [bind, Except.bind] at hL
  have hlast : text.length = s.DISP_COLUMNS.val + 1 := by omega
  have e2 : Int.tdiv ((s.DISP_COLUMNS.val : Int) - ((s.DISP_COLUMNS.val + 1 : Nat) : Int)) 2
      = 0 := by
    rw [← hlen]
    exact e
  simp only [centeredBuffer, hc, bind, Except.bind, hlen, e2]
  rw [forLoop_succ_last, hL]
  simp only [zero_add]
  rw [index_nat text s.DISP_COLUMNS.val (by omega)]
  simp only [store, hLlen]
  rw [if_neg (by omega)]

theorem cursorMoveToRow_of_textClearRow (s : NHD_OLED) (g : Stack) (row : Byte)
    (clear : List Event) (h : textClearRow s g row = .ok clear) :
    ∃ move, cursorMoveToRow s row = .ok move := by
  cases hm : cursorMoveToRow s row with
  | ok move => exact ⟨move, rfl⟩
  | error e =>
    exfalso
    simp only [textClearRow, hm, bind, Except.bind] at h
    split at h <;> cases h

theorem rightBuffer_ok (s : NHD_OLED) (g : Stack) (text : List Byte) (length row : Byte)
    (htext : text.length = length.val) (hlen : length.val ≤ s.DISP_COLUMNS.val) :
    ∃ L : List Byte, L.length = s.DISP_COLUMNS.val
      ∧ textPrintRightJustified s g text length row
        = (textClearRow s g row).bind (fun clear =>
            (cursorMoveToRow s row).bind (fun move =>
              .ok (clear ++ move ++ L.flatMap (sendData s)))) := by
  have e : (s.DISP_COLUMNS.val : Int) - (length.val : Int)
      = ((s.DISP_COLUMNS.val - length.val : Nat) : Int) := by omega
  obtain ⟨L, hL, h1, _, _⟩ := copyLoop text (s.DISP_COLUMNS.val - length.val)
    s.DISP_COLUMNS.val (by omega)
  have hc := clearLoop ((List.range s.DISP_COLUMNS.val).map g.line)
  simp only [List.length_map, List.length_range] at hc
  refine ⟨L, h1, ?_⟩
  rw [htext] at hL
  simp only [bind, Except.bind] at hL
  simp only [textPrintRightJustified, hc, bind, Except.bind, pure, Except.pure, e, hL]
  cases textClearRow s g row with
  | error e => rfl
  | ok clear =>
    simp only
    cases cursorMoveToRow s row with
    | error e => rfl
    | ok move =>
      simp only
      rw [print_eq s L s.DISP_COLUMNS h1]

/-- C26: for a text of length `len <= columns` the loops that fill and read the
`columns`-element buffer `line` stay inside it: the buffer is built without
fault, and `textPrintCentered`, `textPrintRightJustified` and `textSweep`
complete whenever `textClearRow` completes (a fault of `textClearRow`, which does
not touch `line`, is the only fault they can end with). For `len = columns + 1`
the offset `(columns - len) / 2` is 0 by truncating division and
`textPrintCentered` stores at index `columns` of the `columns`-element buffer. -/
theorem line_buffer_in_bounds (s : NHD_OLED) (g : Stack) (text : List Byte)
    (length row leftSweepChar rightSweepChar : Byte) (timeDelay : Nat)
    (htext : text.length = length.val) (hlen : length.val ≤ s.DISP_COLUMNS.val) :
    (∃ L : List Byte, centeredBuffer s g text length = .ok L ∧ L.length = s.DISP_COLUMNS.val)
    ∧ (∀ clear, textClearRow s g row = .ok clear →
        ∃ t1 t2 t3 : List Event,
          textPrintCentered s g text length row = .ok t1
          ∧ textPrintRightJustified s g text length row = .ok t2
          ∧ textSweep s g text length row leftSweepChar rightSweepChar timeDelay = .ok t3)
    ∧ (∀ e, textClearRow s g row = .error e →
        textPrintCentered s g text length row = .error e
        ∧ textPrintRightJustified s g text length row = .error e
        ∧ textSweep s g text length row leftSweepChar rightSweepChar timeDelay = .error e)
    ∧ (∀ (text2 : List Byte) (len2 : Byte), len2.val = s.DISP_COLUMNS.val + 1 →
        text2.length = len2.val →
        Int.tdiv ((s.DISP_COLUMNS.val : Int) - (len2.val : Int)) 2 = 0
        ∧ textPrintCentered s g text2 len2 row
            = .error (Fault.outOfBounds s.DISP_COLUMNS.val s.DISP_COLUMNS.val)) := by
  obtain ⟨L, hL, h1, _, _⟩ := centeredBuffer_ok s g text length htext hlen
  obtain ⟨R, hR1, hR⟩ := rightBuffer_ok s g text length row htext hlen
  refine ⟨⟨L, hL, h1⟩, ?_, ?_, ?_⟩
  · intro clear hclear
    obtain ⟨move, hmove⟩ := cursorMoveToRow_of_textClearRow s g row clear hclear
    refine ⟨_, clear ++ move ++ R.flatMap (sendData s), _,
      textPrintCentered_of_parts s g text length row clear move L hL h1 hclear hmove, ?_,
      textSweep_of_parts s g text length row leftSweepChar rightSweepChar timeDelay clear move L
        hL h1 hclear hmove⟩
    rw [hR, hclear, hmove]
    rfl
  · intro e herr
    refine ⟨?_, ?_, ?_⟩
    · simp only [textPrintCentered, hL, herr, bind, Except.bind]
    · rw [hR, herr]
      rfl
    · simp only [textSweep, hL, herr, bind, Except.bind]
  · intro text2 len2 hlen2 htext2
    obtain ⟨e0, e1⟩ := centeredBuffer_overflow s g text2 len2 hlen2 htext2
    refine ⟨e0, ?_⟩
    simp only [textPrintCentered, e1, bind, Except.bind]

/-- Witness of `line_buffer_in_bounds`: "HI" on the 2 x 16 display stays in
bounds, a text of 17 characters does not. -/
theorem line_buffer_in_bounds_witness :
    (([0x48, 0x49] : List Byte).length = (2 : Byte).val
      ∧ (2 : Byte).val ≤ sampleDriver.DISP_COLUMNS.val
      ∧ (17 : Byte).val = sampleDriver.DISP_COLUMNS.val + 1
      ∧ (List.replicate 17 (0x41 : Byte)).length = (17 : Byte).val)
    ∧ (∃ t1 t2 t3 : List Event,
        textPrintCentered sampleDriver zeroStack [0x48, 0x49] 2 0 = .ok t1
        ∧ textPrintRightJustified sampleDriver zeroStack [0x48, 0x49] 2 0 = .ok t2
        ∧ textSweep sampleDriver zeroStack [0x48, 0x49] 2 0 0x3E 0x3C 50 = .ok t3)
    ∧ textPrintCentered sampleDriver zeroStack (List.replicate 17 (0x41 : Byte)) 17 0
        = .error (Fault.outOfBounds 16 16) := by
  obtain ⟨_, h2, _, h4⟩ := line_buffer_in_bounds sampleDriver zeroStack [0x48, 0x49] 2 0
    0x3E 0x3C 50 (by decide) (by decide)
  have hclear : textClearRow sampleDriver zeroStack 0
      = .ok (sendCommand sampleDriver 0x80 ++ [Event.delay 10]
          ++ (List.replicate 16 (0x20 : Byte)).flatMap (sendData sampleDriver)) := by
    rw [textClearRow_zero sampleDriver zeroStack 0 rfl]
    rfl
  exact ⟨⟨by decide, by decide, by decide, by decide⟩, h2 _ hclear,
    (h4 (List.replicate 17 (0x41 : Byte)) 17 (by decide) (by decide)).2⟩

end NHD_OLED

/-! ## The sweep and the end of the row -/

namespace NHD_OLED

theorem textSweep_oddDriver_trace :
    textSweep oddDriver zeroStack [0x48, 0x49] 2 0 0x3E 0x3C 50
      = .ok ((sendCommand oddDriver 0x80 ++ [Event.delay 10]
              ++ (List.replicate 5 (0x20 : Byte)).flatMap (sendData oddDriver))
          ++ (sweepFrame oddDriver (sendCommand oddDriver 0x80 ++ [Event.delay 10]) 50
                (closingBytes 5 0x3E 0x3C 0)
              ++ sweepFrame oddDriver (sendCommand oddDriver 0x80 ++ [Event.delay 10]) 50
                (closingBytes 5 0x3E 0x3C 1))
          ++ (sweepFrame oddDriver (sendCommand oddDriver 0x80 ++ [Event.delay 10]) 50
                (openingPassBytes 5 [0x20, 0x48, 0x49, 0x20, 0x20] 0x3E 0x3C 1)
              ++ sweepFrame oddDriver (sendCommand oddDriver 0x80 ++ [Event.delay 10]) 50
                (openingPassBytes 5 [0x20, 0x48, 0x49, 0x20, 0x20] 0x3E 0x3C 0)
              ++ sweepFrame oddDriver (sendCommand oddDriver 0x80 ++ [Event.delay 10]) 50
                (openingPassBytes 5 [0x20, 0x48, 0x49, 0x20, 0x20] 0x3E 0x3C 255))
          ++ (sendCommand oddDriver 0x80 ++ [Event.delay 10])
          ++ ([0x20, 0x48, 0x49, 0x20, 0x20] : List Byte).flatMap (sendData oddDriver)) := by
  have hc : List.range (oddDriver.DISP_COLUMNS.val / 2) = [0, 1] := by decide
  have ho : List.range (oddDriver.DISP_COLUMNS.val - oddDriver.DISP_COLUMNS.val / 2)
      = [0, 1, 2] := by decide
  have b1 : openingPassBytes oddDriver.DISP_COLUMNS.val [0x20, 0x48, 0x49, 0x20, 0x20] 0x3E 0x3C
      (Byte.ofInt ((oddDriver.DISP_COLUMNS.val / 2 : Nat) - 1 - (0 : Int)))
      = openingPassBytes 5 [0x20, 0x48, 0x49, 0x20, 0x20] 0x3E 0x3C 1 := rfl
  have b2 : openingPassBytes oddDriver.DISP_COLUMNS.val [0x20, 0x48, 0x49, 0x20, 0x20] 0x3E 0x3C
      (Byte.ofInt ((oddDriver.DISP_COLUMNS.val / 2 : Nat) - 1 - (1 : Int)))
      = openingPassBytes 5 [0x20, 0x48, 0x49, 0x20, 0x20] 0x3E 0x3C 0 := rfl
  have b3 : openingPassBytes oddDriver.DISP_COLUMNS.val [0x20, 0x48, 0x49, 0x20, 0x20] 0x3E 0x3C
      (Byte.ofInt ((oddDriver.DISP_COLUMNS.val / 2 : Nat) - 1 - (2 : Int)))
      = openingPassBytes 5 [0x20, 0x48, 0x49, 0x20, 0x20] 0x3E 0x3C 255 := rfl
  have c1 : closingBytes oddDriver.DISP_COLUMNS.val 0x3E 0x3C 0 = closingBytes 5 0x3E 0x3C 0 := rfl
  have c2 : closingBytes oddDriver.DISP_COLUMNS.val 0x3E 0x3C 1 = closingBytes 5 0x3E 0x3C 1 := rfl
  have hclear : textClearRow oddDriver zeroStack 0
      = .ok (sendCommand oddDriver 0x80 ++ [Event.delay 10]
          ++ (List.replicate 5 (0x20 : Byte)).flatMap (sendData oddDriver)) := by
    rw [textClearRow_zero oddDriver zeroStack 0 rfl]
    rfl
  rw [textSweep_of_parts oddDriver zeroStack [0x48, 0x49] 2 0 0x3E 0x3C 50
    (sendCommand oddDriver 0x80 ++ [Event.delay 10]
      ++ (List.replicate 5 (0x20 : Byte)).flatMap (sendData oddDriver))
    (sendCommand oddDriver 0x80 ++ [Event.delay 10])
    [0x20, 0x48, 0x49, 0x20, 0x20] (by decide) (by decide) hclear rfl, hc, ho]
  simp only [List.flatMap_cons, List.flatMap_nil, List.append_nil, b1, b2, b3, c1, c2,
    Nat.cast_ofNat, Nat.cast_zero, Nat.cast_one, List.append_assoc]

theorem openingPassBytes_wrapped :
    openingPassBytes 5 [0x20, 0x48, 0x49, 0x20, 0x20] 0x3E 0x3C 255
      = List.replicate 255 (0x20 : Byte) ++ [0x3C] ++ [0x20, 0x48, 0x49, 0x20, 0x20]
        ++ [0x3E] ++ List.replicate 255 (0x20 : Byte) := by
  set_option maxRecDepth 20000 in decide

/-- Every step `i < columns/2` of either phase of the sweep sends exactly
`columns` data bytes. -/
theorem sweep_bytes_length (columns : Nat) (buf : List Byte) (l r : Byte) (i : Nat)
    (hbuf : buf.length = columns) (hi : i < columns / 2) :
    (closingBytes columns l r i).length = columns
    ∧ (openingBytes columns buf l r i).length = columns := by
  constructor
  · simp only [closingBytes, List.length_append, List.length_replicate, List.length_cons,
      List.length_nil]
    omega
  · simp only [openingBytes, List.length_append, List.length_replicate, List.length_cons,
      List.length_nil, List.length_take, List.length_drop, hbuf]
    omega

/-- C23 (the code departs from the claim): on a display of 5 columns `textSweep`
sends, after a row-address command `0x80` of row 0 and before the next command,
517 data frames: the pass of the second loop in which the 8-bit `stepnum` has
wrapped from 0 to 255 sends 255 spaces, the right marker, the 5 bytes of the
buffer (`inner` wraps to 5, `start` to 0), the left marker and 255 spaces. So
the bound of `columns` data frames after a row-address command does not hold. -/
theorem textSweep_overruns_row :
    (∃ pre post : List Event,
      textSweep oddDriver zeroStack [0x48, 0x49] 2 0 0x3E 0x3C 50
        = .ok (pre ++ sendCommand oddDriver 0x80 ++ [Event.delay 10]
            ++ (List.replicate 255 (0x20 : Byte) ++ [0x3C] ++ [0x20, 0x48, 0x49, 0x20, 0x20]
                ++ [0x3E] ++ List.replicate 255 (0x20 : Byte)).flatMap (sendData oddDriver)
            ++ [Event.delay 50] ++ sendCommand oddDriver 0x80 ++ post))
    ∧ (List.replicate 255 (0x20 : Byte) ++ [0x3C] ++ [0x20, 0x48, 0x49, 0x20, 0x20]
        ++ [0x3E] ++ List.replicate 255 (0x20 : Byte)).length = 517
    ∧ oddDriver.DISP_COLUMNS.val = 5
    ∧ cursorMoveToRow oddDriver 0 = .ok (sendCommand oddDriver 0x80 ++ [Event.delay 10])
    ∧ Byte.ofInt ((0 : Byte).val - 1) = 255
    ∧ Byte.ofInt ((oddDriver.DISP_COLUMNS.val : Int) - 2 - ((255 : Byte).val : Int) * 2) = 5
    ∧ Byte.ofNat ((255 : Byte).val + 1) = 0
    ∧ ¬ (∀ (pre post : List Event) (c : Byte) (bytes : List Byte),
          textSweep oddDriver zeroStack [0x48, 0x49] 2 0 0x3E 0x3C 50
            = .ok (pre ++ sendCommand oddDriver c ++ [Event.delay 10]
                ++ bytes.flatMap (sendData oddDriver) ++ post) →
          bytes.length ≤ oddDriver.DISP_COLUMNS.val) := by
  have hlen : (List.replicate 255 (0x20 : Byte) ++ [0x3C] ++ [0x20, 0x48, 0x49, 0x20, 0x20]
        ++ [0x3E] ++ List.replicate 255 (0x20 : Byte)).length = 517 := by
    simp only [List.length_append, List.length_replicate, List.length_cons, List.length_nil]
  have heq : textSweep oddDriver zeroStack [0x48, 0x49] 2 0 0x3E 0x3C 50
      = .ok (((sendCommand oddDriver 0x80 ++ [Event.delay 10]
              ++ (List.replicate 5 (0x20 : Byte)).flatMap (sendData oddDriver))
          ++ (sweepFrame oddDriver (sendCommand oddDriver 0x80 ++ [Event.delay 10]) 50
                (closingBytes 5 0x3E 0x3C 0)
              ++ sweepFrame oddDriver (sendCommand oddDriver 0x80 ++ [Event.delay 10]) 50
                (closingBytes 5 0x3E 0x3C 1))
          ++ (sweepFrame oddDriver (sendCommand oddDriver 0x80 ++ [Event.delay 10]) 50
                (openingPassBytes 5 [0x20, 0x48, 0x49, 0x20, 0x20] 0x3E 0x3C 1)
              ++ sweepFrame oddDriver (sendCommand oddDriver 0x80 ++ [Event.delay 10]) 50
                (openingPassBytes 5 [0x20, 0x48, 0x49, 0x20, 0x20] 0x3E 0x3C 0)))
          ++ sendCommand oddDriver 0x80 ++ [Event.delay 10]
          ++ (List.replicate 255 (0x20 : Byte) ++ [0x3C] ++ [0x20, 0x48, 0x49, 0x20, 0x20]
                ++ [0x3E] ++ List.replicate 255 (0x20 : Byte)).flatMap (sendData oddDriver)
          ++ ([Event.delay 50] ++ sendCommand oddDriver 0x80
              ++ ([Event.delay 10]
                ++ ([0x20, 0x48, 0x49, 0x20, 0x20] : List Byte).flatMap (sendData oddDriver)))) := by
    rw [textSweep_oddDriver_trace, ← openingPassBytes_wrapped]
    simp only [sweepFrame, List.append_assoc]
  refine ⟨⟨(sendCommand oddDriver 0x80 ++ [Event.delay 10]
              ++ (List.replicate 5 (0x20 : Byte)).flatMap (sendData oddDriver))
          ++ (sweepFrame oddDriver (sendCommand oddDriver 0x80 ++ [Event.delay 10]) 50
                (closingBytes 5 0x3E 0x3C 0)
              ++ sweepFrame oddDriver (sendCommand oddDriver 0x80 ++ [Event.delay 10]) 50
                (closingBytes 5 0x3E 0x3C 1))
          ++ (sweepFrame oddDriver (sendCommand oddDriver 0x80 ++ [Event.delay 10]) 50
                (openingPassBytes 5 [0x20, 0x48, 0x49, 0x20, 0x20] 0x3E 0x3C 1)
              ++ sweepFrame oddDriver (sendCommand oddDriver 0x80 ++ [Event.delay 10]) 50
                (openingPassBytes 5 [0x20, 0x48, 0x49, 0x20, 0x20] 0x3E 0x3C 0)),
      [Event.delay 10]
      ++ ([0x20, 0x48, 0x49, 0x20, 0x20] : List Byte).flatMap (sendData oddDriver),
    heq.trans (by simp only [List.append_assoc])⟩, hlen, rfl, rfl, rfl, rfl, rfl, ?_⟩
  intro h
  have h2 := h _ _ 0x80 _ heq
  rw [hlen] at h2
  exact absurd h2 (by decide)

end NHD_OLED
